import Mathlib

/-!
Verification of the path/extrusion core of a photonic-layout library
(`gdsfactory/path.py`).  The Python code is shallowly embedded: numpy
float arrays become lists of real pairs, degree-valued angles become
real numbers, fallible functions return `Except`.  Helper code of the
repository that is not part of the provided sources
(`_rotate_points`, `_reflect_points`, the `Section`/`CrossSection`/
`Transition`/`Component`/`Port` data model) is modelled from the
specification, as marked on each such definition.
-/

namespace Gds

noncomputable section

open Real

/-- A 2-d point, mirroring a row of a numpy `[N][2]` float array. -/
abbrev Pt : Type := ℝ × ℝ

/-- Radians-to-degrees conversion as written in the source:
`np.arctan2(...) / np.pi * 180`. -/
def degOf (r : ℝ) : ℝ := r / Real.pi * 180

/-- Degrees-to-radians conversion as written in the source: `angle * np.pi / 180`. -/
def radOf (d : ℝ) : ℝ := d * Real.pi / 180

/-- `np.arctan2 y x`: the angle of the vector `(x, y)` in `(-π, π]`,
with `arctan2 0 0 = 0` as in numpy. -/
def arctan2 (y x : ℝ) : ℝ :=
  if 0 < x then Real.arctan (y / x)
  else if x < 0 then
    (if 0 ≤ y then Real.arctan (y / x) + Real.pi else Real.arctan (y / x) - Real.pi)
  else -- x = 0
    (if 0 < y then Real.pi / 2 else if y < 0 then -(Real.pi / 2) else 0)

/-- `np.mod x 360`: remainder with the sign of the (positive) modulus. -/
def fmod360 (x : ℝ) : ℝ := x - 360 * ⌊x / 360⌋

/-- numpy `.round()`: round half to even (banker's rounding). -/
def roundEven (x : ℝ) : ℤ := if Int.fract x = 1 / 2 then 2 * round (x / 2) else round x

/-- Python `int()` on a float: truncation toward zero. -/
def truncInt (x : ℝ) : ℤ := if 0 ≤ x then ⌊x⌋ else ⌈x⌉

/-- Modelled from the spec: `_rotate_points` (imported from
`component_layout`, not among the provided sources) — rigid rotation of a
point by `angle` degrees about a center. -/
def rotPt (angle : ℝ) (center : Pt) (q : Pt) : Pt :=
  let a := radOf angle
  (center.1 + (q.1 - center.1) * Real.cos a - (q.2 - center.2) * Real.sin a,
   center.2 + (q.1 - center.1) * Real.sin a + (q.2 - center.2) * Real.cos a)

/-- Modelled from the spec: `_reflect_points` (imported from
`component_layout`, not among the provided sources) — reflection of a point
across the line through `p1` and `p2`. -/
def reflectPt (p1 p2 q : Pt) : Pt :=
  let d : Pt := (p2.1 - p1.1, p2.2 - p1.2)
  let n2 := d.1 ^ 2 + d.2 ^ 2
  let t := ((q.1 - p1.1) * d.1 + (q.2 - p1.2) * d.2) / n2
  (2 * (p1.1 + t * d.1) - q.1, 2 * (p1.2 + t * d.2) - q.2)

/-- Euclidean length of one segment, `np.sqrt(dx**2 + dy**2)`. -/
def segLen (a b : Pt) : ℝ := Real.sqrt ((b.1 - a.1) ^ 2 + (b.2 - a.2) ^ 2)

/-- Total polyline length: `np.sum(np.sqrt(dx**2 + dy**2))` over consecutive
point pairs (`Path.length`). -/
def polyLength (pts : List Pt) : ℝ := ((pts.zip pts.tail).map fun ab => segLen ab.1 ab.2).sum

/-- `np.linspace a b n` (`n` samples, endpoints included; step `(b-a)/(n-1)`). -/
def linspace (a b : ℝ) (n : ℕ) : List ℝ :=
  (List.range n).map fun i : ℕ => a + (b - a) * (i : ℝ) / ((n : ℝ) - 1)

/-- The `Path` object: an ordered point list with start/end tangent angles in
degrees and an auxiliary info map (`Path.__init__`). -/
structure Path where
  points : List Pt
  start_angle : ℝ
  end_angle : ℝ
  info : List (String × ℝ)

/-- `Path()`: the empty path starts as the single point `(0,0)` with zero
angles. -/
def Path.empty : Path := ⟨[(0, 0)], 0, 0, []⟩

/-- `Path.copy`: a value copy of all fields. -/
def Path.copy (p : Path) : Path :=
  { points := p.points, start_angle := p.start_angle, end_angle := p.end_angle, info := p.info }

/-- `Path.length`. -/
def Path.length (p : Path) : ℝ := polyLength p.points

/-- First point of a numpy array (`points[0]`; arrays here are nonempty). -/
def headPt (pts : List Pt) : Pt := pts.headD (0, 0)

/-- Last point of a numpy array (`points[-1]`). -/
def lastPt (pts : List Pt) : Pt := pts.getLastD (0, 0)

/-- Start heading of a raw point array, in degrees:
`arctan2(*(points[1] - points[0])) / pi * 180`. -/
def startAngleOf (pts : List Pt) : ℝ :=
  degOf (arctan2 ((pts.getD 1 (0, 0)).2 - (pts.getD 0 (0, 0)).2)
                 ((pts.getD 1 (0, 0)).1 - (pts.getD 0 (0, 0)).1))

/-- End heading of a raw point array, in degrees:
`arctan2(*(points[-1] - points[-2])) / pi * 180`. -/
def endAngleOf (pts : List Pt) : ℝ :=
  degOf (arctan2 ((pts.getD (pts.length - 1) (0, 0)).2 - (pts.getD (pts.length - 2) (0, 0)).2)
                 ((pts.getD (pts.length - 1) (0, 0)).1 - (pts.getD (pts.length - 2) (0, 0)).1))

/-- Core of `Path.append` common to both input kinds: rotate the incoming
points by `end_angle - start_angle`, translate so their first point lands on
our last point, drop the duplicated joint point and concatenate; the new end
angle is `mod(end_angle_in + end_angle_self - start_angle_in, 360)`. -/
def Path.appendCore (self : Path) (pts : List Pt) (sa ea : ℝ) : Path :=
  let rotated := pts.map (rotPt (self.end_angle - sa) (0, 0))
  let shift : Pt := ((lastPt self.points).1 - (headPt rotated).1,
                     (lastPt self.points).2 - (headPt rotated).2)
  let moved := rotated.map fun q => (q.1 + shift.1, q.2 + shift.2)
  { points := self.points ++ moved.tail
    start_angle := self.start_angle
    end_angle := fmod360 (ea + self.end_angle - sa)
    info := self.info }

/-- `Path.append` on a `Path` argument: angles are taken from the argument's
fields. -/
def Path.append (self other : Path) : Path :=
  self.appendCore other.points other.start_angle other.end_angle

/-- `Path.append` on a raw `[N][2]` array argument: angles are recomputed
from the first and last segments via `arctan2`. -/
def Path.appendPts (self : Path) (pts : List Pt) : Path :=
  self.appendCore pts (startAngleOf pts) (endAngleOf pts)

/-- `Path(points)` on a raw `[N][2]` array: stores the points and sets both
angles from the first/last segment headings. -/
def Path.ofPoints (pts : List Pt) : Path :=
  { points := pts, start_angle := startAngleOf pts, end_angle := endAngleOf pts, info := [] }

/-- `Path.move`: translate all points (angles unchanged). -/
def Path.move (p : Path) (d : Pt) : Path :=
  { p with points := p.points.map fun q => (q.1 + d.1, q.2 + d.2) }

/-- `Path.rotate` about `(0,0)`: a no-op for angle 0, else rotates all points
and shifts both angles modulo 360. -/
def Path.rotate (p : Path) (angle : ℝ) : Path :=
  if angle = 0 then p
  else
    { points := p.points.map (rotPt angle (0, 0))
      start_angle := fmod360 (p.start_angle + angle)
      end_angle := fmod360 (p.end_angle + angle)
      info := p.info }

/-- `Path.mirror` across the line through `p1`, `p2`. -/
def Path.mirror (p : Path) (p1 p2 : Pt) : Path :=
  let angle := degOf (arctan2 (p2.2 - p1.2) (p2.1 - p1.1))
  { points := p.points.map (reflectPt p1 p2)
    start_angle := fmod360 (2 * angle - p.start_angle)
    end_angle := fmod360 (2 * angle - p.end_angle)
    info := p.info }

/-- The magic quantization offset used by `hash_geometry` to dodge
float-rounding ties. -/
def magicOffset : ℝ := 0.17048614

/-- The data fed to SHA1 by `Path.hash_geometry`: points quantized as
`round(x/precision + magic_offset)` and the two angles quantized as
`round(angle/precision)` (no offset).  SHA1 itself is modelled as an
injective function of these integers, so two digests are equal exactly when
the quantized data agree (collision-freedom abstraction). -/
def Path.hash_geometry (p : Path) (precision : ℝ) : List (ℤ × ℤ) × (ℤ × ℤ) :=
  (p.points.map fun q =>
      (roundEven (q.1 / precision + magicOffset), roundEven (q.2 / precision + magicOffset)),
   (roundEven (p.start_angle / precision), roundEven (p.end_angle / precision)))

/-- Error conditions raised by the embedded functions (`raise ValueError`
sites of the source, plus the spec's names for them). -/
inductive Err where
  | invalidPathInput
  | invalidLength
  | doubleBack
  | insufficientSpacing
  | eulerPRange
  | noCommonLayers
  | duplicateNameOrLayer
  | needCrossSectionOrLayer
  | onlyCrossSectionOrLayer
  | needLayerWidth
  deriving DecidableEq

/-- `np.degrees` / `np.rad2deg`: `r * (180 / pi)`. -/
def degreesOf (r : ℝ) : ℝ := r * (180 / Real.pi)

/-- The effective number of samples used by `arc`:
`npoints = npoints or abs(int(angle / 360 * radius / bpd / 2))` followed by
`npoints = max(int(npoints), int(360 / angle) + 1)`.  `bpd` is the PDK's
`bend_points_distance`.  (numpy raises on a negative sample count; `toNat`
clips, which is only reached outside the claims' scope.) -/
def arcNum (radius angle : ℝ) (npoints : Option ℕ) (bpd : ℝ) : ℕ :=
  let auto : ℤ := |truncInt (angle / 360 * radius / bpd / 2)|
  let n0 : ℤ := match npoints with
    | some n => if n ≠ 0 then (n : ℤ) else auto
    | none => auto
  (max n0 (truncInt (360 / angle) + 1)).toNat

/-- `arc(radius, angle, npoints, start_angle)`: samples
`t = linspace(start_angle·π/180, (angle+start_angle)·π/180, npoints)`, takes
`x = radius·cos t`, `y = radius·(sin t + 1)`, multiplies the points by
`sign(angle)`, and sets the angles analytically to `start_angle + 90` and
`start_angle + angle + 90`. -/
def arc (radius angle : ℝ) (npoints : Option ℕ) (startAngle : ℝ) (bpd : ℝ) : Path :=
  let n := arcNum radius angle npoints bpd
  let t := linspace (radOf startAngle) (radOf (angle + startAngle)) n
  { points := t.map fun ti =>
      (radius * Real.cos ti * Real.sign angle, radius * (Real.sin ti + 1) * Real.sign angle)
    start_angle := startAngle + 90
    end_angle := startAngle + angle + 90
    info := [] }

/-- One coordinate of the truncated Fresnel series of `_fresnel`
(8 terms by default): `x(t) = Σ (-1)^n t^(4n+1) / ((2n)!·(4n+1))`. -/
def fresnelX (t : ℝ) (nIter : ℕ) : ℝ :=
  ((List.range nIter).map fun n =>
    (-1 : ℝ) ^ n * t ^ (4 * n + 1) / ((Nat.factorial (2 * n)) * (4 * n + 1))).sum

/-- The other coordinate of `_fresnel`: `y(t) = Σ (-1)^n t^(4n+3) / ((2n+1)!·(4n+3))`. -/
def fresnelY (t : ℝ) (nIter : ℕ) : ℝ :=
  ((List.range nIter).map fun n =>
    (-1 : ℝ) ^ n * t ^ (4 * n + 3) / ((Nat.factorial (2 * n + 1)) * (4 * n + 3))).sum

/-- `_fresnel(R0, s, num_pts)`: sampled Euler-spiral prefix, scaled by `√2·R0`. -/
def fresnel (R0 s : ℝ) (numPts : ℕ) : List Pt :=
  (linspace 0 (s / (Real.sqrt 2 * R0)) numPts).map fun t =>
    (Real.sqrt 2 * R0 * fresnelX t 8, Real.sqrt 2 * R0 * fresnelY t 8)

/-- `euler(radius, angle, p, use_eff, npoints)`: rejects `p` outside `[0,1]`;
`p = 0` returns `arc(radius, angle, npoints)` with `Reff`/`Rmin` info;
otherwise builds the partial-Euler bend: a Fresnel-series clothoid piece, a
circular-arc piece of matching curvature, the mirrored copy completing the
turn, effective-radius bookkeeping, and a final mirror for negative input
angles. -/
def euler (radius angle p : ℝ) (useEff : Bool) (npoints : Option ℕ) (bpd : ℝ) :
    Except Err Path :=
  if p < 0 ∨ 1 < p then .error .eulerPRange
  else if p = 0 then
    let P := arc radius angle npoints (-90) bpd
    .ok { P with info := [("Reff", radius), ("Rmin", radius)] }
  else
    let mirror := angle < 0
    let angle := |angle|
    let R0 : ℝ := 1
    let alpha := radOf angle
    let Rp := R0 / Real.sqrt (p * alpha)
    let sp := R0 * Real.sqrt (p * alpha)
    let s0 := 2 * sp + Rp * alpha * (1 - p)
    let nAuto : ℤ := |truncInt (angle / 360 * radius / bpd / 2)|
    let nArg : ℤ := match npoints with
      | some n => if n ≠ 0 then (n : ℤ) else nAuto
      | none => nAuto
    let nPts : ℤ := max nArg (truncInt (360 / angle) + 1)
    let numEuler : ℤ := if nPts ≤ 2 then 0 else roundEven (sp / (s0 / 2) * nPts)
    let numArc : ℤ := if nPts ≤ 2 then 2 else nPts - numEuler
    let bend1 : List Pt := fresnel R0 sp numEuler.toNat
    let xp := (lastPt bend1).1
    let yp := (lastPt bend1).2
    let dx := if numEuler ≤ 0 then 0 else xp - Rp * Real.sin (p * alpha / 2)
    let dy := if numEuler ≤ 0 then 0 else yp - Rp * (1 - Real.cos (p * alpha / 2))
    let s := linspace sp (s0 / 2) numArc.toNat
    let bend2 : List Pt := s.map fun si =>
      (Rp * Real.sin ((si - sp) / Rp + p * alpha / 2) + dx,
       Rp * (1 - Real.cos ((si - sp) / Rp + p * alpha / 2)) + dy)
    let points1 : List Pt := bend1 ++ bend2.tail
    let points2 : List Pt :=
      ((points1.map fun q => (q.1, -q.2)).reverse.map (rotPt (angle - 180) (0, 0)))
    let shift2 : Pt := ((lastPt points1).1 - (headPt points2).1,
                       (lastPt points1).2 - (headPt points2).2)
    let points2' := points2.map fun q => (q.1 + shift2.1, q.2 + shift2.2)
    let points := points1.dropLast ++ points2'
    let startAngle : ℝ := 0   -- 180 * (angle < 0) with the absolute-valued angle
    let endAngle : ℝ := startAngle + angle
    let dyInt := Real.tan (radOf (endAngle - 90)) * (lastPt points).1
    let Reff := if |180 - angle| < 1e-3 then (lastPt points).2 / 2
                else (lastPt points).2 - dyInt
    let Rmin := Rp
    let scale := if useEff then radius / Reff else radius / Rmin
    let P : Path :=
      { points := points.map fun q => (q.1 * scale, q.2 * scale)
        start_angle := startAngle
        end_angle := endAngle
        info := [("Reff", Reff * scale), ("Rmin", Rmin * scale)] }
    .ok (if mirror then P.mirror (1, 0) (0, 0) else P)

/-- The `Path` built by `straight` when validation passes: a linear sample of
`npoints` points appended to the empty path. -/
def straightPath (length : ℝ) (npoints : ℕ) : Path :=
  Path.empty.appendPts ((linspace 0 length npoints).map fun x => (x, 0))

/-- `straight(length, npoints)`: rejects a negative `length`, else returns the
linear sample. -/
def straight (length : ℝ) (npoints : ℕ) : Except Err Path :=
  if length < 0 then .error .invalidLength else .ok (straightPath length npoints)

/-- The data computed by `_compute_segments`: unit segment vectors, segment
lengths, per-segment headings in degrees, and wrapped heading differences. -/
structure SegData where
  pts : List Pt
  normals : List Pt
  ds : List ℝ
  theta : List ℝ
  dtheta : List ℝ

/-- `_compute_segments(points)`.  The turn differences are wrapped into
`(-180, 180]` by `dtheta - 360·floor((dtheta+180)/360)`. -/
def computeSegments (pts : List Pt) : SegData :=
  let diffs := (pts.zip pts.tail).map fun ab => (ab.2.1 - ab.1.1, ab.2.2 - ab.1.2)
  let normals := diffs.map fun d =>
    let n := Real.sqrt (d.1 ^ 2 + d.2 ^ 2); (d.1 / n, d.2 / n)
  let ds := diffs.map fun d => Real.sqrt (d.1 ^ 2 + d.2 ^ 2)
  let theta := diffs.map fun d => degreesOf (arctan2 d.2 d.1)
  let dtheta := ((theta.zip theta.tail).map fun ab => ab.2 - ab.1).map fun d =>
    d - 360 * ((⌊(d + 180) / 360⌋ : ℤ) : ℝ)
  ⟨pts, normals, ds, theta, dtheta⟩

/-- The segment data `smooth` operates on: the waypoints' segment data, with
near-colinear interior points (turn `< 1e-6` degrees) collapsed first when
any exist. -/
def smoothSegs (pts : List Pt) : SegData :=
  let sd := computeSegments pts
  let mask : List Bool := [false] ++ sd.dtheta.map (fun d => decide (|d| < 1e-6)) ++ [false]
  if mask.any id then
    computeSegments (((pts.zip mask).filter fun pm => !pm.2).map Prod.fst)
  else sd

/-- `smooth(points, radius, bend)`: collapses near-colinear interior
waypoints, rejects turns within `1e-6` of ±180°, builds a bend per remaining
turn, rejects bends whose tangent encroachment exceeds a segment length, and
splices the rotated/translated bends between the straight runs. -/
def smooth (ptsIn : List Pt) (radius : ℝ) (bend : ℝ → ℝ → Path) : Except Err Path :=
  let sd := smoothSegs ptsIn
  if sd.dtheta.any (fun d => decide (|(|d| - 180)| < 1e-6)) then .error .doubleBack
  else
    let paths := sd.dtheta.map fun dt => bend radius dt
    let radii := (paths.zip sd.dtheta).map fun pd =>
      |(segLen (headPt pd.1.points) (lastPt pd.1.points) / 2) / Real.sin (radOf (pd.2 / 2))|
    let d := (radii.zip sd.dtheta).map fun rd =>
      |rd.1 / Real.tan (radOf (180 - rd.2) / 2)|
    let encroachment := ((0 :: d).zip (d ++ [0])).map fun ab => ab.1 + ab.2
    if (encroachment.zip sd.ds).any (fun es => decide (es.2 < es.1)) then
      .error .insufficientSpacing
    else
      let interior := sd.pts.tail.dropLast
      let p1 := (interior.zip ((sd.normals.dropLast).zip d)).map fun x =>
        (x.1.1 - x.2.1.1 * x.2.2, x.1.2 - x.2.1.2 * x.2.2)
      let placed := (List.range sd.dtheta.length).map fun n =>
        (((paths.getD n Path.empty).rotate (sd.theta.getD n 0)).move (p1.getD n (0, 0))).points
      let newPoints := [headPt sd.pts] ++ placed.flatten ++ [lastPt sd.pts]
      .ok ((((Path.empty).rotate (sd.theta.getD 0 0)).appendPts newPoints).move (headPt sd.pts))

/-- The inner `while` loop of `along_path` for one segment: place a component
at arc position `next` while `next ≤ cum_dist + segment_length` and
`next ≤ stop`, stepping by `spacing`.  The Python loop has no fuel; for
`spacing > 0` the fuel chosen by `placeSegs` is proved sufficient, and for
`spacing ≤ 0` the Python loop would not terminate. -/
def placeInSeg : ℕ → ℝ → ℝ → ℝ → ℝ → List ℝ
  | 0, _, _, _, _ => []
  | fuel + 1, bound, stop, next, s =>
    if next ≤ bound ∧ next ≤ stop then next :: placeInSeg fuel bound stop (next + s) s
    else []

/-- Fuel that dominates the number of placements left in a segment. -/
def segFuel (bound stop next s : ℝ) : ℕ := (⌊(min bound stop - next) / s⌋ + 1).toNat + 1

/-- The `for` loop of `along_path` over the path's segments, threading the
cumulative distance and the next placement position. -/
def placeSegs : List ℝ → ℝ → ℝ → ℝ → ℝ → List ℝ
  | [], _, _, _, _ => []
  | L :: rest, cum, next, stop, s =>
    let placed := placeInSeg (segFuel (cum + L) stop next s) (cum + L) stop next s
    placed ++ placeSegs rest (cum + L) (next + placed.length * s) stop s

/-- The segment lengths of a polyline. -/
def segLens (pts : List Pt) : List ℝ := (pts.zip pts.tail).map fun ab => segLen ab.1 ab.2

/-- The arc-length positions at which `along_path(p, component, spacing,
padding)` places component instances: `number = (L - 2·padding)//spacing + 1`
placements are attempted starting at `(L - (number-1)·spacing)/2` and walked
across the segments.  (At each such position the code instantiates
`component` rotated to the local segment heading and translated to the point
at that arc length; the placement geometry is determined by these
positions.) -/
def alongPathPositions (pts : List Pt) (spacing padding : ℝ) : List ℝ :=
  let length := polyLength pts
  let number : ℝ := ⌊(length - 2 * padding) / spacing⌋ + 1
  let next := (length - (number - 1) * spacing) / 2
  let stop := length - next
  placeSegs (segLens pts) 0 next stop spacing

/-- Modelled from the spec: a resolved layer id `(layer, datatype)`
(`get_layer` of the PDK registry is modelled as the identity on already
resolved layers). -/
abbrev Layer : Type := ℤ × ℤ

/-- Modelled from the spec: a cross-section `Section` — width, offset, layer,
port name/type pairs, hidden flag, simplify tolerance, end insets, and
optional width/offset functions of normalized arc length (the fields
`extrude`/`extrude_transition` read). -/
structure Sec where
  name : Option String := none
  width : ℝ
  offset : ℝ := 0
  layer : Layer
  port_names : Option String × Option String := (none, none)
  port_types : String × String := ("optical", "optical")
  hidden : Bool := false
  simplify : Option ℝ := none
  insets : Option (ℝ × ℝ) := none
  width_function : Option (ℝ → ℝ) := none
  offset_function : Option (ℝ → ℝ) := none

/-- Modelled from the spec: a periodic component-along-path entry of a
cross-section (spacing, padding, lateral offset). -/
structure ViaSpec where
  spacing : ℝ
  padding : ℝ
  offset : ℝ := 0

/-- Modelled from the spec: a `CrossSection` — an ordered tuple of sections
plus the components-along-path list. -/
structure CrossSec where
  sections : List Sec
  components_along_path : List ViaSpec := []

/-- The width-interpolation law of a `Transition`
(`width_type`; an unknown string raises in Python, which the inductive
excludes at the type level). -/
inductive WidthKind where
  | sine
  | linear
  | parabolic
  | elliptical
  | custom (f : ℝ → ℝ → ℝ → ℝ)

/-- Modelled from the spec: a `Transition` pairs two cross-sections with a
width-interpolation law. -/
structure Transition where
  cross_section1 : CrossSec
  cross_section2 : CrossSec
  width_type : WidthKind

/-- Modelled from the spec: a `Port` — name, center, outward orientation in
degrees, width, layer, port type, optional shear angle. -/
structure Port where
  name : String
  center : Pt
  orientation : ℝ
  width : ℝ
  layer : Layer
  port_type : String
  shear_angle : Option ℝ := none

/-- Modelled from the spec: a `Component` — an accumulator of polygons by
layer, ports, placed sub-component instances (recorded by their arc-length
position along the host path), and an info map.  This core only appends to
it. -/
structure Component where
  polygons : List (List Pt × Layer) := []
  ports : List Port := []
  instances : List ℝ := []
  info : List (String × ℝ) := []

/-- `along_path(p, component, spacing, padding)`: a Component holding one
instance of `component` per computed arc-length position (the code rotates
each instance to the local segment heading and translates it to the point at
that arc length, so the positions determine the placement). -/
def along_path (p : Path) (spacing padding : ℝ) : Component :=
  { instances := alongPathPositions p.points spacing padding }

/-- Python truthiness of an optional float (`None` and `0.0` are falsy). -/
def truthyR (o : Option ℝ) : Bool := decide (o.getD 0 ≠ 0)

/-- `np.round(x, 3)`. -/
def round3 (x : ℝ) : ℝ := (roundEven (x * 1000) : ℝ) / 1000

/-- `np.round` applied to a point row. -/
def round3Pt (q : Pt) : Pt := (round3 q.1, round3 q.2)

/-- `[0]` prepended to the running arc length at each point
(`np.concatenate([[0], np.cumsum(np.sqrt(dx**2 + dy**2))])`). -/
def cumLengths (pts : List Pt) : List ℝ :=
  (List.range pts.length).map fun i => polyLength (pts.take (i + 1))

/-- `Path._centerpoint_offset_curve(points, offset_distance, start_angle,
end_angle)`: the miter-style polyline offset.  Per interior vertex the
headings of the two adjacent segments give a bisector direction
`theta_mid` and internal angle `dtheta_int`; the offset distance is scaled
by `1/sin(dtheta_int/2)`; endpoints are overridden to offset exactly
perpendicular to the supplied start/end angles.  `offsetD i` is the offset
distance at point `i` (numpy broadcasts a scalar). -/
def centerpointOffsetCurve (points : List Pt) (offsetD : ℕ → ℝ)
    (startAngle endAngle : Option ℝ) : List Pt :=
  let n := points.length
  let pt := fun i => points.getD i (0, 0)
  let thRaw := fun i => arctan2 ((pt (i + 1)).2 - (pt i).2) ((pt (i + 1)).1 - (pt i).1)
  let thP := fun (i : ℕ) => if i = 0 then thRaw 0 else thRaw (min (i - 1) (n - 2))
  let thMid := fun i => (Real.pi + thP (i + 1) + thP i) / 2
  let dthInt := fun i => Real.pi + thP i - thP (i + 1)
  let offD := fun i => offsetD i / Real.sin (dthInt i / 2)
  (List.range n).map fun i =>
    if i = n - 1 ∧ endAngle.isSome then
      ((pt (n - 1)).1 + Real.sin (radOf (endAngle.getD 0)) * offD (n - 1),
       (pt (n - 1)).2 - Real.cos (radOf (endAngle.getD 0)) * offD (n - 1))
    else if i = 0 ∧ startAngle.isSome then
      ((pt 0).1 + Real.sin (radOf (startAngle.getD 0)) * offD 0,
       (pt 0).2 - Real.cos (radOf (startAngle.getD 0)) * offD 0)
    else
      ((pt i).1 - offD i * Real.cos (thMid i), (pt i).2 - offD i * Real.sin (thMid i))

/-- The argument of `Path.offset`: a constant or a function of normalized
arc length. -/
inductive OffsetArg where
  | const (d : ℝ)
  | fn (f : ℝ → ℝ)

/-- `Path.offset(offset)`: a no-op for constant 0; a constant offsets the
centerline keeping both angles; a callable offsets per normalized arc length
and recomputes both angles from a forward difference of the offset function
over a `1e-6` step. -/
def Path.offset (p : Path) (arg : OffsetArg) : Path :=
  match arg with
  | .const d =>
    if d = 0 then p
    else
      { p with points :=
          centerpointOffsetCurve p.points (fun _ => d) (some p.start_angle) (some p.end_angle) }
  | .fn f =>
    let lengths := cumLengths p.points
    let total := lengths.getLastD 0
    let pts := centerpointOffsetCurve p.points (fun i => f (lengths.getD i 0 / total))
      (some p.start_angle) (some p.end_angle)
    let tol : ℝ := 1e-6
    let ds := tol / total
    let ny1 := f ds - f 0
    let ny2 := f 1 - f (1 - ds)
    { points := pts
      start_angle := degOf (arctan2 (-ny1) tol) + p.start_angle
      end_angle := degOf (arctan2 (-ny2) tol) + p.end_angle
      info := p.info }

/-- Minimum x coordinate of a point list (`p.xmin` via the bbox). -/
def minX (pts : List Pt) : ℝ := ((pts.map Prod.fst).min?).getD 0

/-- Maximum x coordinate of a point list (`p.xmax` via the bbox). -/
def maxX (pts : List Pt) : ℝ := ((pts.map Prod.fst).max?).getD 0

/-- Index of the first point with `pred`; `np.argwhere(...)[0, 0]`
(an empty `argwhere` is a Python `IndexError`; here `findIdx` then returns
the list length, a branch outside every claim's scope). -/
def firstIdxWhere (pred : Pt → Bool) (l : List Pt) : ℕ := l.findIdx pred

/-- Index of the last point with `pred`; `np.argwhere(...)[-1, 0]` (same
caveat as `firstIdxWhere` for the empty case). -/
def lastIdxWhere (pred : Pt → Bool) (l : List Pt) : ℕ :=
  l.length - 1 - l.reverse.findIdx pred

/-- The external polygon-simplification and ray-cut routines
(`_simplify` via shapely's Douglas-Peucker `simplify`, and
`_cut_path_with_ray` via shapely intersection/projection) are pure functions
of their arguments supplied by the shapely library; the embedding abstracts
them as parameters. -/
structure ExtFns where
  simplifyFn : List Pt → ℝ → List Pt
  cutFn : Pt → Option ℝ → Pt → Option ℝ → List Pt → List Pt

/-- The per-section state threaded through `extrude`'s section loop: the
accumulated Component and the Python local variables `points`,
`start_angle`, `end_angle` that leak out of the loop body into the
components-along-path loop (they keep their previous value when a section is
skipped by the insets guard). -/
abbrev SecState : Type := Component × Option (List Pt × ℝ × ℝ)

/-- One iteration of `extrude`'s per-section loop: copy the path, apply end
insets (skipping the section with a warning when the insets fall outside the
path's x-span), apply a callable offset, round the points to 3 decimals,
offset by `±width/2` via the centerpoint-offset algorithm, optionally shear
the end faces and simplify, emit the joined polygon unless the section is
hidden or the path is shorter than `1e-3`, and emit a port per non-null port
name. -/
def extrudeSec (fns : ExtFns) (p : Path) (shearS shearE : Option ℝ)
    (simplifyArg : Option ℝ) (st : SecState) (sec : Sec) : SecState :=
  let pSec := p.copy
  let skipAndPSec : Bool × Path :=
    match sec.insets with
    | some ins =>
      if ins ≠ (0, 0) then
        let pPts := pSec.points
        let newXStart := minX p.points + ins.1
        let newXStop := maxX p.points - ins.2
        if newXStart > maxX pPts ∨ newXStop < minX pPts then (true, pSec)
        else
          let i1 := firstIdxWhere (fun q => decide (newXStart < q.1)) pPts
          let i2 := lastIdxWhere (fun q => decide (q.1 < newXStop)) pPts
          (false, Path.ofPoints
            ([(newXStart, (pPts.getD i1 (0, 0)).2)] ++ ((pPts.drop i1).take (i2 - i1)
              ++ [(newXStop, (pPts.getD i2 (0, 0)).2)])))
      else (false, pSec)
    | none => (false, pSec)
  if skipAndPSec.1 then st
  else
    let pSec := skipAndPSec.2
    let pSec := match sec.offset_function with
      | some f => pSec.offset (.fn f)
      | none => pSec
    let offsetVal := if sec.offset_function.isSome then 0 else sec.offset
    let startAngle := pSec.start_angle
    let endAngle := pSec.end_angle
    let points := pSec.points.map round3Pt
    let lengths := cumLengths pSec.points
    let total := lengths.getLastD 0
    let widthAt : ℕ → ℝ := match sec.width_function with
      | some wf => fun i => wf (lengths.getD i 0 / total)
      | none => fun _ => sec.width
    let points1 := centerpointOffsetCurve points (fun i => offsetVal + widthAt i / 2)
      (some startAngle) (some endAngle)
    let points2 := centerpointOffsetCurve points (fun i => offsetVal - widthAt i / 2)
      (some startAngle) (some endAngle)
    let cut : List Pt → List Pt := fun pl =>
      if truthyR shearS ∨ truthyR shearE then
        fns.cutFn (headPt points)
          (if truthyR shearS then some (startAngle + shearS.getD 0 - 90) else none)
          (lastPt points)
          (if truthyR shearE then some (endAngle + shearE.getD 0 + 90) else none) pl
      else pl
    let points1 := cut points1
    let points2 := cut points2
    let simpEff : Option ℝ := if truthyR sec.simplify then sec.simplify else simplifyArg
    let points1 := if truthyR simpEff then fns.simplifyFn points1 (simpEff.getD 0) else points1
    let points2 := if truthyR simpEff then fns.simplifyFn points2 (simpEff.getD 0) else points2
    let pointsPoly := points1 ++ points2.reverse
    let c := st.1
    let c := if ¬ sec.hidden ∧ pSec.length > 1e-3 then
        { c with polygons := c.polygons ++ [(pointsPoly, sec.layer)] } else c
    let c := match sec.port_names.1 with
      | some nm =>
        { c with ports := c.ports ++ [{
            name := nm
            center := headPt points
            orientation := fmod360 (pSec.start_angle + 180)
            width := widthAt 0
            layer := if sec.hidden then (sec.layer.1, 0) else sec.layer
            port_type := sec.port_types.1
            shear_angle := shearS }] }
      | none => c
    let c := match sec.port_names.2 with
      | some nm =>
        { c with ports := c.ports ++ [{
            name := nm
            center := lastPt points
            orientation := fmod360 pSec.end_angle
            width := widthAt (points.length - 1)
            layer := if sec.hidden then (sec.layer.2, 0) else sec.layer
            port_type := sec.port_types.2
            shear_angle := shearE }] }
      | none => c
    (c, some (points, startAngle, endAngle))

/-- The key by which `_get_named_sections` files a section: its name when
that is a non-empty string (Python truthiness of `section.name`), else its
resolved layer. -/
def sectionKey (s : Sec) : String ⊕ Layer :=
  match s.name with
  | some n => if n ≠ "" then .inl n else .inr s.layer
  | none => .inr s.layer

/-- `_get_named_sections(sections)`: files each section under its key,
failing on a duplicate name/layer. -/
def getNamedSections (sections : List Sec) : Except Err (List ((String ⊕ Layer) × Sec)) :=
  sections.foldlM (fun (acc : List ((String ⊕ Layer) × Sec)) (s : Sec) =>
    if (acc.map Prod.fst).any (fun x => decide (x = sectionKey s)) then
      Except.error Err.duplicateNameOrLayer
    else Except.ok (acc ++ [(sectionKey s, s)])) []

/-- A placeholder section for the (unreachable) failed lookup of a common
key. -/
def defaultSec : Sec := { name := none, width := 0, layer := (0, 0) }

/-- The interpolation function selected by a transition's `width_type`
(`_linear_transition`, `_sinusoidal_transition`, `_parabolic_transition`,
`_elliptical_transition`, or a custom callable). -/
def transitionWidthFn (wk : WidthKind) (y1 y2 : ℝ) : ℝ → ℝ :=
  match wk with
  | .sine => fun t => y1 + (1 - Real.cos (Real.pi * t)) / 2 * (y2 - y1)
  | .linear => fun t => y1 + t * (y2 - y1)
  | .parabolic => fun t => y1 + Real.sqrt t * (y2 - y1)
  | .elliptical => fun t => y2 - (y2 - y1) * Real.sqrt (1 - t ^ 2)
  | .custom f => fun t => f t y1 y2

/-- One iteration of `extrude_transition`'s loop over the common section
keys: sinusoidal offset interpolation, width interpolation per the chosen
law, cross-layer pairs become hidden, then the same offset/shear/simplify/
polygon/port pipeline as `extrude` (port widths use the raw endpoint widths
`width1`/`width2`). -/
def extrudeTransSec (fns : ExtFns) (p : Path) (wk : WidthKind)
    (shearS shearE : Option ℝ) (s1 s2 : Sec) (c : Component) : Component :=
  let pSec := p.copy
  let offsetFn := transitionWidthFn .sine s1.offset s2.offset
  let widthFn := transitionWidthFn wk s1.width s2.width
  let hidden := s1.layer ≠ s2.layer
  let pSec := pSec.offset (.fn offsetFn)
  let startAngle := pSec.start_angle
  let endAngle := pSec.end_angle
  let points := pSec.points.map round3Pt
  let lengths := cumLengths pSec.points
  let total := lengths.getLastD 0
  let widthAt : ℕ → ℝ := fun i => widthFn (lengths.getD i 0 / total)
  let points1 := centerpointOffsetCurve points (fun i => 0 + widthAt i / 2)
    (some startAngle) (some endAngle)
  let points2 := centerpointOffsetCurve points (fun i => 0 - widthAt i / 2)
    (some startAngle) (some endAngle)
  let cut : List Pt → List Pt := fun pl =>
    if truthyR shearS ∨ truthyR shearE then
      fns.cutFn (headPt points)
        (if truthyR shearS then some (startAngle + shearS.getD 0 - 90) else none)
        (lastPt points)
        (if truthyR shearE then some (endAngle + shearE.getD 0 + 90) else none) pl
    else pl
  let points1 := cut points1
  let points2 := cut points2
  let doSimp := truthyR s1.simplify ∧ truthyR s2.simplify
  let tol := min (s1.simplify.getD 0) (s2.simplify.getD 0)
  let points1 := if doSimp then fns.simplifyFn points1 tol else points1
  let points2 := if doSimp then fns.simplifyFn points2 tol else points2
  let pointsPoly := points1 ++ points2.reverse
  let c := if ¬ hidden ∧ pSec.length > 1e-3 then
      { c with polygons := c.polygons ++ [(pointsPoly, s1.layer)] } else c
  let c := match s1.port_names.1 with
    | some nm =>
      { c with ports := c.ports ++ [{
          name := nm
          center := headPt points
          orientation := fmod360 (pSec.start_angle + 180)
          width := s1.width
          layer := if hidden then s1.layer else s1.layer
          port_type := s1.port_types.1
          shear_angle := shearS }] }
    | none => c
  let c := match s1.port_names.2 with
    | some nm =>
      { c with ports := c.ports ++ [{
          name := nm
          center := lastPt points
          orientation := fmod360 pSec.end_angle
          width := s2.width
          layer := if hidden then s2.layer else s1.layer
          port_type := s1.port_types.2
          shear_angle := shearE }] }
    | none => c
  c

/-- `extrude_transition(p, transition, ...)`: files both cross-sections'
sections by name (falling back to layer), intersects the key sets, fails
with the no-common-layers error when the intersection is empty, and
otherwise runs the transition pipeline per common key, finally recording the
path length. -/
def extrude_transition (fns : ExtFns) (p : Path) (t : Transition)
    (shearS shearE : Option ℝ) : Except Err Component := do
  let named1 ← getNamedSections t.cross_section1.sections
  let named2 ← getNamedSections t.cross_section2.sections
  let names1 := named1.map Prod.fst
  let names2 := named2.map Prod.fst
  let common := names1.filter fun k : String ⊕ Layer => names2.any (fun x => decide (x = k))
  if common = [] then Except.error Err.noCommonLayers
  else
    let c := common.foldl (fun c key =>
      extrudeTransSec fns p t.width_type shearS shearE
        ((named1.lookup key).getD defaultSec) ((named2.lookup key).getD defaultSec) c)
      {}
    Except.ok { c with info := [("length", round3 p.length)] }

/-- The cross-section argument of `extrude`: a plain cross-section or a
transition (`get_cross_section` is modelled as the identity on resolved
specs). -/
inductive XSpec where
  | xs (x : CrossSec)
  | trans (t : Transition)

/-- `extrude(p, cross_section, layer, width, simplify, shear angles)`:
validates the argument combination, builds a single-section cross-section
from `layer`/`width` when a truthy `width` is given, dispatches transitions
to `extrude_transition`, and otherwise runs the per-section pipeline, records
the rounded path length, and lays out the components-along-path entries.
The returned pair carries the final state of the caller's `p` object (the
body only reads `p` and mutates per-section copies). -/
def extrude (fns : ExtFns) (p : Path) (cross_section : Option XSpec)
    (layer : Option Layer) (width : Option ℝ) (simplifyArg : Option ℝ)
    (shearS shearE : Option ℝ) : Except Err Component × Path :=
  if cross_section.isNone && layer.isNone then (.error .needCrossSectionOrLayer, p)
  else if cross_section.isSome && layer.isSome then (.error .onlyCrossSectionOrLayer, p)
  else if layer.isSome && width.isNone then (.error .needLayerWidth, p)
  else
    let xspec : XSpec :=
      if truthyR width then
        .xs { sections := [{ name := none, width := width.getD 0, offset := 0
                             layer := layer.getD (0, 0)
                             port_names := (some "o1", some "o2")
                             port_types := ("optical", "optical") }] }
      else cross_section.getD (.xs { sections := [] })
    match xspec with
    | .trans t => (extrude_transition fns p t shearS shearE, p)
    | .xs x =>
      let stComp : SecState :=
        x.sections.foldl (extrudeSec fns p shearS shearE simplifyArg) ({}, none)
      let c := { stComp.1 with info := [("length", round3 p.length)] }
      let leaked := stComp.2.getD ([], 0, 0)
      let c := x.components_along_path.foldl (fun c via =>
        let pVia := if via.offset ≠ 0 then
            Path.ofPoints (centerpointOffsetCurve leaked.1 (fun _ => via.offset)
              (some leaked.2.1) (some leaked.2.2))
          else p
        { c with instances :=
            c.instances ++ (along_path pVia via.spacing via.padding).instances }) c
      (.ok c, p)

/-- The transformed copy of `other.points` that `append` splices on: rotated
by `self.end_angle - other.start_angle` about the origin, then translated so
its first point lands on `self`'s last point. -/
def appendTransformed (P Q : Path) : List Pt :=
  let rotated := Q.points.map (rotPt (P.end_angle - Q.start_angle) (0, 0))
  rotated.map fun q => (q.1 + ((lastPt P.points).1 - (headPt rotated).1),
                        q.2 + ((lastPt P.points).2 - (headPt rotated).2))

/-- A small concrete two-point path used by witnesses. -/
def segPath : Path := Path.ofPoints [(0, 0), (1, 0)]

/-- Concrete external functions for witnesses: simplification and ray-cut
modelled as the identity. -/
def idFns : ExtFns := ⟨fun l _ => l, fun _ _ _ _ l => l⟩

/-- A one-section cross-section used by witnesses. -/
def oneSecX : CrossSec :=
  { sections := [{ name := some "core", width := 1, layer := (1, 0)
                   port_names := (some "o1", some "o2") }] }

/-- A cross-section holding two unnamed sections on the same layer — its
sections collide under `sectionKey`. -/
def dupX : CrossSec :=
  { sections := [{ name := none, width := 1, layer := (1, 0) },
                 { name := none, width := 2, layer := (1, 0) }] }

/-- A cross-section on a layer disjoint from `dupX`'s. -/
def otherX : CrossSec := { sections := [{ name := none, width := 1, layer := (2, 0) }] }

/-- A single-section cross-section on layer `(3, 0)`, key-disjoint from
`oneSecX`. -/
def thirdX : CrossSec := { sections := [{ name := some "slab", width := 1, layer := (3, 0) }] }

/-- The closed-form count of placements made by the inner `along_path` loop
for one segment: how many of `next, next+s, next+2s, …` fall at or below
both `bound` and `stop`.  Spec-side definition used to state and prove the
loop's behaviour. -/
def countFrom (bound stop next s : ℝ) : ℕ :=
  if next ≤ min bound stop then (⌊(min bound stop - next) / s⌋ + 1).toNat else 0

/-- The closed-form count of placements up to `stop` only (the total made by
`along_path` when the path is long enough).  Spec-side definition used by
the proofs. -/
def countTo (stop next s : ℝ) : ℕ :=
  if next ≤ stop then (⌊(stop - next) / s⌋ + 1).toNat else 0

-- ===================================================================
-- Theorems
-- ===================================================================

theorem radOf_zero : radOf 0 = 0 := by simp [radOf]

theorem rotPt_zero (c q : Pt) : rotPt 0 c q = q := by
  obtain ⟨qx, qy⟩ := q
  obtain ⟨cx, cy⟩ := c
  simp [rotPt, radOf]

theorem degOf_neg (r : ℝ) : degOf (-r) = -degOf r := by simp [degOf, neg_div]

theorem degOf_pi_div_two : degOf (Real.pi / 2) = 90 := by
  have h := Real.pi_ne_zero
  field_simp [degOf]
  ring

theorem degOf_zero : degOf 0 = 0 := by simp [degOf]

theorem arctan2_neg_down : arctan2 (-1) 0 = -(Real.pi / 2) := by
  norm_num [arctan2]

theorem arctan2_zero_right (x : ℝ) (hx : 0 < x) : arctan2 0 x = 0 := by
  simp [arctan2, hx]

theorem arctan2_zero_zero : arctan2 0 0 = 0 := by simp [arctan2]

theorem roundEven_int (n : ℤ) : roundEven (n : ℝ) = n := by
  rw [roundEven, Int.fract_intCast]
  norm_num

theorem floor_of_bounds (x : ℝ) (k : ℤ) (h1 : (k : ℝ) ≤ x) (h2 : x < k + 1) : ⌊x⌋ = k := by
  rw [Int.floor_eq_iff]
  exact ⟨h1, h2⟩

theorem fmod360_neg_ninety : fmod360 (-90) = 270 := by
  have h : ⌊(-90 : ℝ) / 360⌋ = -1 := by
    apply floor_of_bounds
    · norm_num
    · norm_num
  rw [fmod360, h]
  norm_num

/-- Claim C1: for paths with at least two points each, `append(other)`
rotates `other`'s points by `self.end_angle - other.start_angle`, translates
them so `other`'s first point coincides exactly with `self`'s last point,
concatenates dropping the duplicated shared point (so the result has
`len(self) + len(other) - 1` points), and sets the new end angle to
`(other.end_angle + self.end_angle - other.start_angle) mod 360`. -/
theorem append_spec (P Q : Path) (hP : 2 ≤ P.points.length) (hQ : 2 ≤ Q.points.length) :
    (P.append Q).points = P.points ++ (appendTransformed P Q).tail ∧
    headPt (appendTransformed P Q) = lastPt P.points ∧
    (P.append Q).points.length = P.points.length + Q.points.length - 1 ∧
    (P.append Q).end_angle = fmod360 (Q.end_angle + P.end_angle - Q.start_angle) := by
  refine ⟨rfl, ?_, ?_, rfl⟩
  · obtain ⟨q0, rest, hq⟩ : ∃ q0 rest, Q.points = q0 :: rest := by
      cases hpts : Q.points with
      | nil => rw [hpts] at hQ; simp at hQ
      | cons a l => exact ⟨a, l, rfl⟩
    obtain ⟨rx, ry⟩ := rotPt (P.end_angle - Q.start_angle) (0, 0) q0
    simp [appendTransformed, hq, headPt]
  · have hlen : (P.append Q).points.length = P.points.length + (Q.points.length - 1) := by
      simp [Path.append, Path.appendCore]
    omega

/-- Claim C1 witness: the theorem instantiated at two concrete two-point
paths. -/
theorem append_spec_witness :
    2 ≤ segPath.points.length ∧
    ((segPath.append segPath).points = segPath.points ++ (appendTransformed segPath segPath).tail ∧
     headPt (appendTransformed segPath segPath) = lastPt segPath.points ∧
     (segPath.append segPath).points.length = segPath.points.length + segPath.points.length - 1 ∧
     (segPath.append segPath).end_angle =
       fmod360 (segPath.end_angle + segPath.end_angle - segPath.start_angle)) :=
  ⟨by simp [segPath, Path.ofPoints],
   append_spec segPath segPath (by simp [segPath, Path.ofPoints]) (by simp [segPath, Path.ofPoints])⟩

theorem startAngleOf_down2 : startAngleOf [((0 : ℝ), (0 : ℝ)), (0, -1)] = -90 := by
  have : startAngleOf [((0 : ℝ), (0 : ℝ)), (0, -1)] = degOf (arctan2 (-1) 0) := by
    simp [startAngleOf]
  rw [this, arctan2_neg_down, degOf_neg, degOf_pi_div_two]

theorem endAngleOf_down2 : endAngleOf [((0 : ℝ), (0 : ℝ)), (0, -1)] = -90 := by
  have : endAngleOf [((0 : ℝ), (0 : ℝ)), (0, -1)] = degOf (arctan2 (-1) 0) := by
    simp [endAngleOf]
  rw [this, arctan2_neg_down, degOf_neg, degOf_pi_div_two]

theorem startAngleOf_down3 : startAngleOf [((0 : ℝ), (0 : ℝ)), (0, -1), (0, -2)] = -90 := by
  have : startAngleOf [((0 : ℝ), (0 : ℝ)), (0, -1), (0, -2)] = degOf (arctan2 (-1) 0) := by
    simp [startAngleOf]
  rw [this, arctan2_neg_down, degOf_neg, degOf_pi_div_two]

theorem endAngleOf_down3 : endAngleOf [((0 : ℝ), (0 : ℝ)), (0, -1), (0, -2)] = -90 := by
  have : endAngleOf [((0 : ℝ), (0 : ℝ)), (0, -1), (0, -2)] = degOf (arctan2 (-1) 0) := by
    norm_num [endAngleOf]
  rw [this, arctan2_neg_down, degOf_neg, degOf_pi_div_two]

/-- The direct-constructor route of the C8 counterexample. -/
def downDirect : Path := Path.ofPoints [(0, 0), (0, -1), (0, -2)]

/-- The append route of the C8 counterexample: the same three points built by
appending a straight-down two-point path to a straight-down two-point path. -/
def downAppended : Path :=
  (Path.ofPoints [(0, 0), (0, -1)]).append (Path.ofPoints [(0, 0), (0, -1)])

theorem downAppended_points : downAppended.points = [((0 : ℝ), (0 : ℝ)), (0, -1), (0, -2)] := by
  have hrot : (Path.ofPoints [((0 : ℝ), (0 : ℝ)), (0, -1)]).end_angle
      - (Path.ofPoints [((0 : ℝ), (0 : ℝ)), (0, -1)]).start_angle = 0 := by
    show endAngleOf [((0 : ℝ), (0 : ℝ)), (0, -1)]
        - startAngleOf [((0 : ℝ), (0 : ℝ)), (0, -1)] = 0
    rw [endAngleOf_down2, startAngleOf_down2]
    norm_num
  show (Path.ofPoints [((0 : ℝ), (0 : ℝ)), (0, -1)]).points ++ _ = _
  rw [Path.ofPoints]
  simp only [Path.append, Path.appendCore, Path.ofPoints] at hrot ⊢
  rw [hrot]
  simp [rotPt_zero, headPt, lastPt]
  norm_num

theorem downAppended_end_angle : downAppended.end_angle = 270 := by
  show fmod360 ((Path.ofPoints [((0 : ℝ), (0 : ℝ)), (0, -1)]).end_angle
      + (Path.ofPoints [((0 : ℝ), (0 : ℝ)), (0, -1)]).end_angle
      - (Path.ofPoints [((0 : ℝ), (0 : ℝ)), (0, -1)]).start_angle) = 270
  rw [Path.ofPoints]
  simp only [startAngleOf_down2, endAngleOf_down2]
  rw [show (-90 : ℝ) + -90 - -90 = -90 by norm_num, fmod360_neg_ninety]

/-- Claim C8 counterexample: two Paths with coordinate-equal point arrays —
one built directly from the point list, one built by `append` — whose
`hash_geometry(1e-4)` results differ, because `append` stores
`end_angle = 270` (mod-360 normalized) while the direct constructor stores
the `arctan2` value `-90`, and both angles are hashed. -/
theorem hash_route_counterexample :
    downDirect.points = downAppended.points ∧
    downDirect.hash_geometry (1 / 10000) ≠ downAppended.hash_geometry (1 / 10000) := by
  constructor
  · rw [downAppended_points]; rfl
  · intro h
    have hend := congrArg (fun z => z.2.2) h
    simp only [Path.hash_geometry] at hend
    rw [downAppended_end_angle] at hend
    have hdir : downDirect.end_angle = -90 := by
      show endAngleOf _ = -90
      exact endAngleOf_down3
    rw [hdir] at hend
    rw [show (-90 : ℝ) / (1 / 10000) = ((-900000 : ℤ) : ℝ) by norm_num,
        show (270 : ℝ) / (1 / 10000) = ((2700000 : ℤ) : ℝ) by norm_num,
        roundEven_int, roundEven_int] at hend
    norm_num at hend

/-- Claim C8 (amended): `hash_geometry` is a function of the point array and
the two stored angles only — two Paths whose point arrays are
coordinate-equal AND whose `start_angle`/`end_angle` agree produce identical
hashes (construction routes can disagree on the stored `end_angle`: `append`
normalizes it into `[0, 360)` while the direct constructor keeps the
`arctan2` value in `(-180, 180]`, so angle agreement is required). -/
theorem hash_geometry_deterministic (P Q : Path) (precision : ℝ)
    (hpts : P.points = Q.points) (hsa : P.start_angle = Q.start_angle)
    (hea : P.end_angle = Q.end_angle) :
    P.hash_geometry precision = Q.hash_geometry precision := by
  simp [Path.hash_geometry, hpts, hsa, hea]

/-- Claim C8 (amended) witness: two construction routes (direct and via
`copy`) with equal points and angles hash identically. -/
theorem hash_geometry_deterministic_witness :
    segPath.points = segPath.copy.points ∧
    segPath.start_angle = segPath.copy.start_angle ∧
    segPath.end_angle = segPath.copy.end_angle ∧
    segPath.hash_geometry (1 / 10000) = segPath.copy.hash_geometry (1 / 10000) :=
  ⟨rfl, rfl, rfl, hash_geometry_deterministic _ _ _ rfl rfl rfl⟩

theorem polyLength_cons_cons (a b : Pt) (t : List Pt) :
    polyLength (a :: b :: t) = segLen a b + polyLength (b :: t) := by
  simp [polyLength]

theorem polyLength_append_last (l : List Pt) (a : Pt) (hl : l ≠ []) :
    polyLength (l ++ [a]) = polyLength l + segLen (lastPt l) a := by
  induction l with
  | nil => simp at hl
  | cons x t ih =>
    cases t with
    | nil => simp [polyLength, lastPt]
    | cons y u =>
      have h2 := ih (by simp)
      simp only [List.cons_append] at h2 ⊢
      rw [polyLength_cons_cons, h2, polyLength_cons_cons]
      have hlast : lastPt (x :: y :: u) = lastPt (y :: u) := by simp [lastPt]
      rw [hlast]
      ring

theorem lastPt_map_range (h : ℕ → Pt) (n : ℕ) :
    lastPt ((List.range (n + 1)).map h) = h n := by
  rw [List.range_succ, List.map_append]
  simp [lastPt]

theorem polyLength_map_range (h : ℕ → Pt) (n : ℕ) :
    polyLength ((List.range (n + 1)).map h) =
      ∑ i ∈ Finset.range n, segLen (h i) (h (i + 1)) := by
  induction n with
  | zero => simp [polyLength, List.range_succ]
  | succ m ih =>
    rw [List.range_succ (n := m + 1), List.map_append, List.map_singleton,
      polyLength_append_last _ _ (by simp), ih, lastPt_map_range,
      Finset.sum_range_succ]

theorem getD_map_range (h : ℕ → Pt) (n i : ℕ) (hi : i < n) :
    ((List.range n).map h).getD i (0, 0) = h i := by
  rw [List.getD_eq_getElem?_getD, List.getElem?_map, List.getElem?_range hi]
  rfl

theorem headPt_map_range (h : ℕ → Pt) (n : ℕ) (hn : 1 ≤ n) :
    headPt ((List.range n).map h) = h 0 := by
  obtain ⟨m, rfl⟩ : ∃ m, n = m + 1 := ⟨n - 1, by omega⟩
  rw [List.range_succ_eq_map]
  simp [headPt]

theorem arctan2_zero_nonneg (x : ℝ) (hx : 0 ≤ x) : arctan2 0 x = 0 := by
  rcases lt_or_eq_of_le hx with h | h
  · exact arctan2_zero_right x h
  · rw [← h]; exact arctan2_zero_zero

/-- The points `straight` samples: `(i·L/(n-1), 0)` for `i < n`. -/
theorem straightPts_eq (L : ℝ) (n : ℕ) :
    (linspace 0 L n).map (fun x => ((x : ℝ), (0 : ℝ))) =
      (List.range n).map (fun i : ℕ => (L * (i : ℝ) / ((n : ℝ) - 1), 0)) := by
  rw [linspace, List.map_map]
  refine List.map_congr_left fun i _ => ?_
  simp only [Function.comp_apply, Prod.mk.injEq]
  exact ⟨by ring, trivial⟩

theorem startAngleOf_straight (L : ℝ) (n : ℕ) (hL : 0 ≤ L) :
    startAngleOf ((List.range n).map (fun i : ℕ => (L * (i : ℝ) / ((n : ℝ) - 1), (0 : ℝ)))) = 0 := by
  set g : ℕ → Pt := fun i : ℕ => (L * (i : ℝ) / ((n : ℝ) - 1), (0 : ℝ)) with hg
  rcases le_or_lt n 1 with hn | hn
  · -- fewer than two points: both getD defaults collapse to equal values
    interval_cases n
    · simp [startAngleOf, arctan2_zero_zero, degOf_zero]
    · simp [startAngleOf, hg, arctan2_zero_zero, degOf_zero]
  · have h0 : ((List.range n).map g).getD 0 (0, 0) = g 0 := getD_map_range g n 0 (by omega)
    have h1 : ((List.range n).map g).getD 1 (0, 0) = g 1 := getD_map_range g n 1 hn
    rw [startAngleOf, h0, h1, hg]
    simp only
    push_cast
    rw [show ((0 : ℝ) - 0) = 0 by ring]
    rw [arctan2_zero_nonneg, degOf_zero]
    have hd : (0 : ℝ) ≤ (n : ℝ) - 1 := by
      have : (1 : ℝ) ≤ (n : ℝ) := by exact_mod_cast hn.le
      linarith
    have heq : L * 1 / ((n : ℝ) - 1) - L * 0 / ((n : ℝ) - 1) = L / ((n : ℝ) - 1) := by ring
    rw [heq]
    exact div_nonneg hL hd

theorem straightPath_points (L : ℝ) (n : ℕ) (hL : 0 ≤ L) (hn : 1 ≤ n) :
    (straightPath L n).points =
      (List.range n).map (fun i : ℕ => (L * (i : ℝ) / ((n : ℝ) - 1), (0 : ℝ))) := by
  set g : ℕ → Pt := fun i : ℕ => (L * (i : ℝ) / ((n : ℝ) - 1), (0 : ℝ)) with hg
  have hpts : (linspace 0 L n).map (fun x => ((x : ℝ), (0 : ℝ))) = (List.range n).map g :=
    straightPts_eq L n
  have hsa : startAngleOf ((List.range n).map g) = 0 := startAngleOf_straight L n hL
  have hhead : headPt ((List.range n).map g) = (0, 0) := by
    rw [headPt_map_range g n hn, hg]
    simp
  -- the rotation is by `0 - 0 = 0` and the shift is `(0,0)`
  show (Path.empty.appendCore ((linspace 0 L n).map fun x => (x, 0)) _ _).points = _
  rw [Path.appendCore, hpts, hsa]
  have hrot : ∀ q ∈ (List.range n).map g, rotPt (Path.empty.end_angle - 0) (0, 0) q = q := by
    intro q _
    rw [show Path.empty.end_angle - 0 = 0 by simp [Path.empty]]
    exact rotPt_zero _ q
  rw [List.map_congr_left hrot, List.map_id']
  rw [show lastPt Path.empty.points = (0, 0) by simp [Path.empty, lastPt]]
  rw [hhead]
  have hmove : ∀ q ∈ (List.range n).map g,
      (q.1 + ((0 : ℝ) - (0 : ℝ)), q.2 + ((0 : ℝ) - (0 : ℝ))) = q := by
    intro q _
    simp
  simp only
  rw [List.map_congr_left hmove, List.map_id']
  -- `[(0,0)] ++ tail` rebuilds the list since its head is `(0,0)`
  obtain ⟨t, ht⟩ : ∃ t, (List.range n).map g = (0, 0) :: t := by
    cases hl : (List.range n).map g with
    | nil =>
      have : n = 0 := by simpa using congrArg List.length hl
      omega
    | cons a t =>
      refine ⟨t, ?_⟩
      have ha : a = ((0 : ℝ), (0 : ℝ)) := by
        have h := hhead
        rw [hl] at h
        simpa [headPt] using h
      rw [ha]
  rw [ht]
  simp [Path.empty]

theorem segLen_horiz (a b : ℝ) : segLen (a, 0) (b, 0) = |b - a| := by
  rw [segLen]
  simp only
  rw [show (b - a) ^ 2 + ((0 : ℝ) - 0) ^ 2 = (b - a) ^ 2 by ring, Real.sqrt_sq_eq_abs]

theorem straightPath_length_eq (L : ℝ) (n : ℕ) (hL : 0 ≤ L) (hn : 2 ≤ n) :
    (straightPath L n).length = L := by
  obtain ⟨m, rfl⟩ : ∃ m, n = m + 1 := ⟨n - 1, by omega⟩
  have hm : 1 ≤ m := by omega
  have hm0 : ((m : ℝ)) ≠ 0 := Nat.cast_ne_zero.mpr (by omega)
  rw [Path.length, straightPath_points L (m + 1) hL (by omega), polyLength_map_range]
  have hcast : (((m + 1 : ℕ)) : ℝ) - 1 = (m : ℝ) := by push_cast; ring
  have hterm : ∀ i ∈ Finset.range m,
      segLen (L * i / ((((m + 1 : ℕ)) : ℝ) - 1), (0 : ℝ))
             (L * ((i + 1 : ℕ) : ℝ) / ((((m + 1 : ℕ)) : ℝ) - 1), (0 : ℝ)) = L / m := by
    intro i _
    rw [hcast, segLen_horiz]
    push_cast
    rw [show L * ((i : ℝ) + 1) / m - L * i / m = L / m by ring]
    exact abs_of_nonneg (by positivity)
  rw [Finset.sum_congr rfl hterm, Finset.sum_const, Finset.card_range, nsmul_eq_mul]
  field_simp

/-- Claim C5: `straight(length=L, npoints=n)` fails with the length-validation
error exactly when `L < 0`; for `L ≥ 0` and `n ≥ 2` it returns a Path of
exactly `n` points whose `length()` equals `L` (exactly, in the real-number
model, hence within the claimed `1e-6`). -/
theorem straight_spec (L : ℝ) (n : ℕ) :
    (straight L n = Except.error Err.invalidLength ↔ L < 0) ∧
    (0 ≤ L → 2 ≤ n →
      straight L n = Except.ok (straightPath L n) ∧
      (straightPath L n).points.length = n ∧
      (straightPath L n).length = L) := by
  constructor
  · by_cases hL : L < 0
    · simp [straight, hL]
    · simp [straight, hL]
  · intro hL hn
    refine ⟨by rw [straight, if_neg (not_lt.mpr hL)], ?_, straightPath_length_eq L n hL hn⟩
    rw [straightPath_points L n hL (by omega)]
    simp

/-- Claim C5 witness: `straight(3, 2)` succeeds with two points and length 3;
`straight(-1, 2)` fails with the length-validation error. -/
theorem straight_spec_witness :
    (straight (-1) 2 = Except.error Err.invalidLength ↔ (-1 : ℝ) < 0) ∧
    ((0 : ℝ) ≤ 3 ∧ 2 ≤ 2) ∧
    (straight 3 2 = Except.ok (straightPath 3 2) ∧
     (straightPath (3 : ℝ) 2).points.length = 2 ∧
     (straightPath (3 : ℝ) 2).length = 3) :=
  ⟨(straight_spec (-1) 2).1, ⟨by norm_num, le_refl 2⟩,
   (straight_spec 3 2).2 (by norm_num) (le_refl 2)⟩

/-- Claim C6: `euler(radius, angle, p=0)` produces exactly `arc(radius,
angle)`'s geometry: the same point array and the same `start_angle` and
`end_angle` (the `p = 0` branch returns the arc itself, adding only `info`
keys). -/
theorem euler_p0_eq_arc (radius angle : ℝ) (useEff : Bool) (npoints : Option ℕ) (bpd : ℝ) :
    (euler radius angle 0 useEff npoints bpd).map Path.points
        = Except.ok (arc radius angle npoints (-90) bpd).points ∧
    (euler radius angle 0 useEff npoints bpd).map Path.start_angle
        = Except.ok (arc radius angle npoints (-90) bpd).start_angle ∧
    (euler radius angle 0 useEff npoints bpd).map Path.end_angle
        = Except.ok (arc radius angle npoints (-90) bpd).end_angle := by
  have h : euler radius angle 0 useEff npoints bpd =
      Except.ok { arc radius angle npoints (-90) bpd with
                  info := [("Reff", radius), ("Rmin", radius)] } := by
    rw [euler, if_neg (by norm_num), if_pos rfl]
  rw [h]
  exact ⟨rfl, rfl, rfl⟩

theorem cos_neg_pi2_sub (W : ℝ) : Real.cos (-(Real.pi / 2) - W) = -Real.sin W := by
  rw [show -(Real.pi / 2) - W = -(Real.pi / 2 + W) by ring, Real.cos_neg, Real.cos_add]
  simp

theorem sin_neg_pi2_sub (W : ℝ) : Real.sin (-(Real.pi / 2) - W) = -Real.cos W := by
  rw [show -(Real.pi / 2) - W = -(Real.pi / 2 + W) by ring, Real.sin_neg, Real.sin_add]
  simp

theorem cos_neg_pi2_add (W : ℝ) : Real.cos (-(Real.pi / 2) + W) = Real.sin W := by
  rw [show -(Real.pi / 2) + W = W - Real.pi / 2 by ring, Real.cos_sub]
  simp

theorem sin_neg_pi2_add (W : ℝ) : Real.sin (-(Real.pi / 2) + W) = -Real.cos W := by
  rw [show -(Real.pi / 2) + W = W - Real.pi / 2 by ring, Real.sin_sub]
  simp

theorem arcNum_pos_eq (radius a bpd : ℝ) (n : ℕ) (ha : 0 < a) (hn1 : 1 ≤ n)
    (hn : (truncInt (360 / a) + 1).toNat ≤ n) : arcNum radius a (some n) bpd = n := by
  have hn0 : n ≠ 0 := by omega
  have htn : truncInt (360 / a) + 1 ≤ (n : ℤ) := by rwa [Int.toNat_le] at hn
  rw [arcNum]
  simp only [ne_eq, hn0, not_false_eq_true, if_true]
  rw [max_eq_left htn]
  simp

theorem arcNum_neg_eq (radius a bpd : ℝ) (n : ℕ) (ha : 0 < a) (hn1 : 1 ≤ n) :
    arcNum radius (-a) (some n) bpd = n := by
  have hn0 : n ≠ 0 := by omega
  have hx : 360 / (-a) < 0 := by
    have h0 : (0 : ℝ) < 360 / a := by positivity
    rw [div_neg]
    linarith
  have ht : truncInt (360 / (-a)) ≤ 0 := by
    rw [truncInt, if_neg (not_le.mpr hx)]
    exact Int.ceil_le.mpr (by exact_mod_cast hx.le)
  have htn : truncInt (360 / (-a)) + 1 ≤ (n : ℤ) := by
    have : (1 : ℤ) ≤ (n : ℤ) := by exact_mod_cast hn1
    omega
  rw [arcNum]
  simp only [ne_eq, hn0, not_false_eq_true, if_true]
  rw [max_eq_left htn]
  simp

/-- Claim C9 (amended): with the default `start_angle = -90` and an equal
effective sample count (explicit `npoints ≥ int(360/angle)+1`; the automatic
count differs between the signs), `arc(radius, -angle)` is the mirror of
`arc(radius, angle)` obtained by flipping the sign of the y-coordinate of
each sampled point, with the x-coordinates unchanged. -/
theorem arc_neg_angle_mirror (radius a : ℝ) (n : ℕ) (bpd : ℝ)
    (ha : 0 < a) (hn1 : 1 ≤ n) (hn : (truncInt (360 / a) + 1).toNat ≤ n) :
    (arc radius (-a) (some n) (-90) bpd).points =
      (arc radius a (some n) (-90) bpd).points.map (fun q => (q.1, -q.2)) := by
  rw [arc, arc]
  simp only
  rw [arcNum_pos_eq radius a bpd n ha hn1 hn, arcNum_neg_eq radius a bpd n ha hn1]
  simp only [linspace, List.map_map]
  refine List.map_congr_left fun i _ => ?_
  simp only [Function.comp_apply]
  rw [Real.sign_of_pos ha, Real.sign_of_neg (by linarith : -a < 0)]
  rw [show radOf (-90) + (radOf (-a + -90) - radOf (-90)) * (i : ℝ) / ((n : ℝ) - 1)
        = -(Real.pi / 2) - a * Real.pi / 180 * (i : ℝ) / ((n : ℝ) - 1) by
      simp only [radOf]; ring]
  rw [show radOf (-90) + (radOf (a + -90) - radOf (-90)) * (i : ℝ) / ((n : ℝ) - 1)
        = -(Real.pi / 2) + a * Real.pi / 180 * (i : ℝ) / ((n : ℝ) - 1) by
      simp only [radOf]; ring]
  rw [cos_neg_pi2_sub, sin_neg_pi2_sub, cos_neg_pi2_add, sin_neg_pi2_add]
  simp only [Prod.mk.injEq]
  exact ⟨by ring, by ring⟩

theorem truncInt_four : truncInt ((360 : ℝ) / 90) = 4 := by
  rw [truncInt, if_pos (by norm_num), show ((360 : ℝ) / 90) = ((4 : ℤ) : ℝ) by norm_num,
     Int.floor_intCast]

/-- Claim C9 (amended) witness: the mirror relation instantiated at
`radius = 1`, `angle = 90`, `npoints = 5`. -/
theorem arc_neg_angle_mirror_witness :
    ((0 : ℝ) < 90 ∧ 1 ≤ 5 ∧ (truncInt ((360 : ℝ) / 90) + 1).toNat ≤ 5) ∧
    (arc 1 (-90) (some 5) (-90) 1).points =
      (arc 1 90 (some 5) (-90) 1).points.map (fun q => (q.1, -q.2)) :=
  ⟨⟨by norm_num, by norm_num, by rw [truncInt_four]; decide⟩,
   arc_neg_angle_mirror 1 90 5 1 (by norm_num) (by norm_num) (by rw [truncInt_four]; decide)⟩

theorem arc_points_getD (radius angle : ℝ) (np : Option ℕ) (bpd : ℝ) (n i : ℕ)
    (hn : arcNum radius angle np bpd = n) (hi : i < n) :
    (arc radius angle np (-90) bpd).points.getD i (0, 0) =
      (radius * Real.cos (radOf (-90) + (radOf (angle + -90) - radOf (-90)) * (i : ℝ)
          / ((n : ℝ) - 1)) * Real.sign angle,
       radius * (Real.sin (radOf (-90) + (radOf (angle + -90) - radOf (-90)) * (i : ℝ)
          / ((n : ℝ) - 1)) + 1) * Real.sign angle) := by
  rw [arc]
  simp only
  rw [hn, linspace, List.map_map, getD_map_range _ n i hi]
  rfl

theorem arc_pos_last_point :
    (arc 1 90 (some 5) (-90) 1).points.getD 4 (0, 0) = (1, 1) := by
  rw [arc_points_getD 1 90 (some 5) 1 5 4
    (arcNum_pos_eq 1 90 1 5 (by norm_num) (by norm_num) (by rw [truncInt_four]; decide))
    (by norm_num)]
  rw [show radOf (-90) + (radOf ((90 : ℝ) + -90) - radOf (-90)) * ((4 : ℕ) : ℝ)
        / (((5 : ℕ) : ℝ) - 1) = 0 by
      simp only [radOf]; push_cast; ring]
  rw [Real.sign_of_pos (by norm_num : (0 : ℝ) < 90)]
  simp

theorem arc_neg_last_point :
    (arc 1 (-90) (some 5) (-90) 1).points.getD 4 (0, 0) = (1, -1) := by
  rw [arc_points_getD 1 (-90) (some 5) 1 5 4
    (arcNum_neg_eq 1 90 1 5 (by norm_num) (by norm_num)) (by norm_num)]
  rw [show radOf (-90) + (radOf ((-90 : ℝ) + -90) - radOf (-90)) * ((4 : ℕ) : ℝ)
        / (((5 : ℕ) : ℝ) - 1) = -Real.pi by
      simp only [radOf]; push_cast; ring]
  rw [Real.cos_neg, Real.sin_neg, Real.cos_pi, Real.sin_pi,
      Real.sign_of_neg (by norm_num : (-90 : ℝ) < 0)]
  norm_num

/-- Claim C9 counterexample: at `radius = 1`, `angle = 90`, `npoints = 5` the
final sampled point of `arc(1, -90)` is `(1, -1)`, not the x-flipped
`(-1, 1)` the claim predicts — negating the angle flips the y-coordinates
(and keeps x), not the x-coordinates. -/
theorem arc_neg_angle_claim_counterexample :
    ¬ ((arc 1 (-90) (some 5) (-90) 1).points.getD 4 (0, 0) =
        (-((arc 1 90 (some 5) (-90) 1).points.getD 4 (0, 0)).1,
          ((arc 1 90 (some 5) (-90) 1).points.getD 4 (0, 0)).2)) := by
  rw [arc_pos_last_point, arc_neg_last_point]
  simp only [Prod.mk.injEq]
  intro h
  have := h.2
  norm_num at this

theorem arctan2_up (y : ℝ) (hy : 0 < y) : arctan2 y 0 = Real.pi / 2 := by
  rw [arctan2, if_neg (lt_irrefl (0 : ℝ)), if_neg (lt_irrefl (0 : ℝ)), if_pos hy]

theorem arctan2_down (y : ℝ) (hy : y < 0) : arctan2 y 0 = -(Real.pi / 2) := by
  rw [arctan2, if_neg (lt_irrefl (0 : ℝ)), if_neg (lt_irrefl (0 : ℝ)),
    if_neg (not_lt.mpr hy.le), if_pos hy]

theorem degreesOf_pi_div_two : degreesOf (Real.pi / 2) = 90 := by
  have h := Real.pi_ne_zero
  field_simp [degreesOf]
  ring

theorem degreesOf_neg (r : ℝ) : degreesOf (-r) = -degreesOf r := by
  simp [degreesOf, neg_div]

/-- Claim C7: whenever, after the near-colinear collapse, some wrapped turn
angle is within `1e-6` degrees of ±180°, `smooth` fails with the double-back
error and returns no Path. -/
theorem smooth_double_back (pts : List Pt) (radius : ℝ) (bend : ℝ → ℝ → Path)
    (h : ∃ d ∈ (smoothSegs pts).dtheta, |(|d| - 180)| < 1e-6) :
    smooth pts radius bend = Except.error Err.doubleBack := by
  have hb : ((smoothSegs pts).dtheta.any fun d => decide (|(|d| - 180)| < 1e-6)) = true := by
    rw [List.any_eq_true]
    obtain ⟨d, hd, hlt⟩ := h
    exact ⟨d, hd, decide_eq_true hlt⟩
  rw [smooth, if_pos hb]

theorem computeSegments_vee :
    (computeSegments [((0 : ℝ), (0 : ℝ)), (0, 10), (0, 0)]).dtheta = [-180] := by
  rw [computeSegments]
  simp only [List.zip_cons_cons, List.zip_nil_right, List.map_cons, List.map_nil]
  norm_num
  rw [arctan2_up 10 (by norm_num), arctan2_down (-10) (by norm_num),
      degreesOf_neg, degreesOf_pi_div_two]
  have h1 : (-90 : ℝ) - 90 = -180 := by norm_num
  rw [h1]
  have h2 : ⌊((-180 : ℝ) + 180) / 360⌋ = 0 := by norm_num
  rw [h2]
  norm_num

theorem smoothSegs_vee :
    (smoothSegs [((0 : ℝ), (0 : ℝ)), (0, 10), (0, 0)]).dtheta = [-180] := by
  rw [smoothSegs]
  rw [computeSegments_vee]
  have hfalse : (decide (|(-180 : ℝ)| < 1e-6)) = false := decide_eq_false (by norm_num)
  simp only [List.map_cons, List.map_nil, hfalse]
  rw [if_neg (by simp)]
  exact computeSegments_vee

/-- Claim C7 witness: `smooth` on the doubling-back waypoints
`(0,0), (0,10), (0,0)` fails with the double-back error. -/
theorem smooth_double_back_witness :
    (∃ d ∈ (smoothSegs [((0 : ℝ), (0 : ℝ)), (0, 10), (0, 0)]).dtheta, |(|d| - 180)| < 1e-6) ∧
    smooth [((0 : ℝ), (0 : ℝ)), (0, 10), (0, 0)] 4 (fun _ _ => Path.empty)
      = Except.error Err.doubleBack :=
  ⟨by rw [smoothSegs_vee]; exact ⟨-180, by simp, by norm_num⟩,
   smooth_double_back _ _ _ (by rw [smoothSegs_vee]; exact ⟨-180, by simp, by norm_num⟩)⟩

/-- Claim C10: `extrude` validates its argument combination before producing
geometry — with `cross_section=None` and `layer=None` it raises; with both
`cross_section` and `layer` it raises; with `layer` but `width=None` it
raises; in each case no Component is returned. -/
theorem extrude_validates (fns : ExtFns) (p : Path) :
    (∀ w simparg shS shE,
      (extrude fns p none none w simparg shS shE).1 = Except.error Err.needCrossSectionOrLayer) ∧
    (∀ cs l w simparg shS shE,
      (extrude fns p (some cs) (some l) w simparg shS shE).1
        = Except.error Err.onlyCrossSectionOrLayer) ∧
    (∀ l simparg shS shE,
      (extrude fns p none (some l) none simparg shS shE).1 = Except.error Err.needLayerWidth) := by
  refine ⟨fun w simparg shS shE => ?_, fun cs l w simparg shS shE => ?_,
    fun l simparg shS shE => ?_⟩ <;> simp [extrude]

theorem truthyR_none : truthyR none = false := by
  rw [truthyR]
  exact decide_eq_false (by simp)

theorem extrude_snd (fns : ExtFns) (p : Path) (cs : Option XSpec) (layer : Option Layer)
    (width : Option ℝ) (simparg shS shE : Option ℝ) :
    (extrude fns p cs layer width simparg shS shE).2 = p := by
  rw [extrude]
  split
  · rfl
  split
  · rfl
  split
  · rfl
  split
  · rfl
  cases hxs : cs.getD (XSpec.xs { sections := [] }) with
  | xs x => rfl
  | trans t => rfl

/-- Claim C4: whenever `extrude` returns normally, the source Path is
unchanged by the call — its `points`, `start_angle`, `end_angle` and `info`
are those of the input (the body only reads `p`; every mutation happens on
the per-section `p.copy()`). -/
theorem extrude_preserves_source (fns : ExtFns) (p : Path) (cs : Option XSpec)
    (layer : Option Layer) (width : Option ℝ) (simparg shS shE : Option ℝ)
    (h : ((extrude fns p cs layer width simparg shS shE).1).isOk = true) :
    ((extrude fns p cs layer width simparg shS shE).2).points = p.points ∧
    ((extrude fns p cs layer width simparg shS shE).2).start_angle = p.start_angle ∧
    ((extrude fns p cs layer width simparg shS shE).2).end_angle = p.end_angle ∧
    ((extrude fns p cs layer width simparg shS shE).2).info = p.info := by
  rw [extrude_snd]
  exact ⟨rfl, rfl, rfl, rfl⟩

/-- Claim C4 witness: a successful extrusion of a concrete two-point path
with a concrete one-section cross-section leaves the path unchanged. -/
theorem extrude_preserves_source_witness :
    ((extrude idFns segPath (some (XSpec.xs oneSecX)) none none none none none).1).isOk = true ∧
    (((extrude idFns segPath (some (XSpec.xs oneSecX)) none none none none none).2).points
        = segPath.points ∧
     ((extrude idFns segPath (some (XSpec.xs oneSecX)) none none none none none).2).start_angle
        = segPath.start_angle ∧
     ((extrude idFns segPath (some (XSpec.xs oneSecX)) none none none none none).2).end_angle
        = segPath.end_angle ∧
     ((extrude idFns segPath (some (XSpec.xs oneSecX)) none none none none none).2).info
        = segPath.info) := by
  have hOk : ((extrude idFns segPath (some (XSpec.xs oneSecX)) none none none none none).1).isOk
      = true := by
    rw [extrude]
    simp only [Option.isNone_none, Option.isNone_some, Option.isSome_some, Option.isSome_none,
      Bool.and_false, Bool.false_and, Bool.and_true, Bool.true_and, Bool.false_eq_true,
      if_false, truthyR_none, Option.getD_some]
    rfl
  exact ⟨hOk, extrude_preserves_source _ _ _ _ _ _ _ _ hOk⟩

theorem getNamed_go (l : List Sec) (acc : List ((String ⊕ Layer) × Sec))
    (hd : (l.map sectionKey).Nodup)
    (hdisj : ∀ s ∈ l, sectionKey s ∉ acc.map Prod.fst) :
    List.foldlM (fun (acc : List ((String ⊕ Layer) × Sec)) (s : Sec) =>
      if (acc.map Prod.fst).any (fun x => decide (x = sectionKey s)) then
        Except.error Err.duplicateNameOrLayer
      else Except.ok (acc ++ [(sectionKey s, s)])) acc l
      = Except.ok (acc ++ l.map fun s => (sectionKey s, s)) := by
  induction l generalizing acc with
  | nil => simp [pure, Except.pure]
  | cons s rest ih =>
    rw [List.foldlM_cons]
    have hnot : ((acc.map Prod.fst).any (fun x => decide (x = sectionKey s))) = false := by
      rw [List.any_eq_false]
      intro x hx
      simp only [decide_eq_true_eq]
      intro hxe
      exact hdisj s (List.mem_cons_self s rest) (hxe ▸ hx)
    rw [hnot]
    simp only [Bool.false_eq_true, if_false]
    have := ih (acc ++ [(sectionKey s, s)])
      (by simpa using hd.of_cons)
      (by
        intro s2 hs2
        simp only [List.map_append, List.map_cons, List.map_nil, List.mem_append,
          List.mem_singleton]
        rintro (hin | hkey)
        · exact hdisj s2 (List.mem_cons_of_mem s hs2) hin
        · have : sectionKey s ∈ rest.map sectionKey := by
            rw [← hkey]
            exact List.mem_map_of_mem sectionKey hs2
          rw [List.map_cons, List.nodup_cons] at hd
          exact hd.1 this)
    rw [show (Except.ok (acc ++ [(sectionKey s, s)]) : Except Err _) >>= _
        = List.foldlM _ (acc ++ [(sectionKey s, s)]) rest from rfl]
    rw [this]
    simp

theorem getNamedSections_ok (l : List Sec) (hd : (l.map sectionKey).Nodup) :
    getNamedSections l = Except.ok (l.map fun s => (sectionKey s, s)) := by
  rw [getNamedSections]
  have := getNamed_go l [] hd (by simp)
  simpa using this

/-- Claim C3 (amended): `extrude_transition` matches sections of the two
cross-sections by `sectionKey` — the section name when present and non-empty,
falling back to the layer id — and, provided each cross-section's sections
carry pairwise distinct keys (otherwise the duplicate-key error fires first),
it fails with the no-common-layers error whenever the two key sets are
disjoint; the error return carries no Component, so no polygon or port is
emitted. -/
theorem extrude_transition_no_common (fns : ExtFns) (p : Path) (t : Transition)
    (shS shE : Option ℝ)
    (hd1 : (t.cross_section1.sections.map sectionKey).Nodup)
    (hd2 : (t.cross_section2.sections.map sectionKey).Nodup)
    (hcommon : ∀ k ∈ t.cross_section1.sections.map sectionKey,
      k ∉ t.cross_section2.sections.map sectionKey) :
    extrude_transition fns p t shS shE = Except.error Err.noCommonLayers := by
  rw [extrude_transition]
  rw [getNamedSections_ok _ hd1, getNamedSections_ok _ hd2]
  have hmap1 : (t.cross_section1.sections.map fun s => (sectionKey s, s)).map Prod.fst
      = t.cross_section1.sections.map sectionKey := by
    rw [List.map_map]
    rfl
  have hmap2 : (t.cross_section2.sections.map fun s => (sectionKey s, s)).map Prod.fst
      = t.cross_section2.sections.map sectionKey := by
    rw [List.map_map]
    rfl
  have hfilter : ((t.cross_section1.sections.map fun s => (sectionKey s, s)).map Prod.fst).filter
      (fun k : String ⊕ Layer =>
        ((t.cross_section2.sections.map fun s => (sectionKey s, s)).map Prod.fst).any
          (fun x => decide (x = k))) = [] := by
    rw [hmap1, hmap2, List.filter_eq_nil_iff]
    intro k hk
    rw [Bool.not_eq_true, List.any_eq_false]
    intro x hx
    simp only [decide_eq_true_eq]
    intro hxe
    exact hcommon k hk (hxe ▸ hx)
  show (if _ = ([] : List (String ⊕ Layer)) then _ else _) = _
  rw [hfilter]
  rw [if_pos rfl]

/-- Claim C3 (amended) witness: two concrete one-section cross-sections on
layers `(1,0)` and `(3,0)` share no keys, and `extrude_transition` fails
with the no-common-layers error. -/
theorem extrude_transition_no_common_witness :
    ((oneSecX.sections.map sectionKey).Nodup ∧
     (thirdX.sections.map sectionKey).Nodup ∧
     (∀ k ∈ oneSecX.sections.map sectionKey, k ∉ thirdX.sections.map sectionKey)) ∧
    extrude_transition idFns segPath ⟨oneSecX, thirdX, WidthKind.sine⟩ none none
      = Except.error Err.noCommonLayers :=
  ⟨⟨by simp [oneSecX, sectionKey], by simp [thirdX, sectionKey], by
      intro k hk
      simp only [oneSecX, thirdX, sectionKey, List.map_cons, List.map_nil,
        List.mem_singleton] at hk ⊢
      rw [hk]
      simp⟩,
   extrude_transition_no_common idFns segPath ⟨oneSecX, thirdX, WidthKind.sine⟩ none none
     (by simp [oneSecX, sectionKey]) (by simp [thirdX, sectionKey])
     (by
      intro k hk
      simp only [oneSecX, thirdX, sectionKey, List.map_cons, List.map_nil,
        List.mem_singleton] at hk ⊢
      rw [hk]
      simp)⟩

/-- Claim C3 counterexample: a transition whose cross-sections share no
section names/layers, but whose first cross-section holds two unnamed
sections on the same layer — the call fails with the duplicate-name/layer
error raised by `_get_named_sections`, not with the no-common-layers error
the claim asserts. -/
theorem extrude_transition_dup_counterexample :
    (∀ k ∈ dupX.sections.map sectionKey, k ∉ otherX.sections.map sectionKey) ∧
    extrude_transition idFns segPath ⟨dupX, otherX, WidthKind.sine⟩ none none
      = Except.error Err.duplicateNameOrLayer ∧
    extrude_transition idFns segPath ⟨dupX, otherX, WidthKind.sine⟩ none none
      ≠ Except.error Err.noCommonLayers := by
  have herr : extrude_transition idFns segPath ⟨dupX, otherX, WidthKind.sine⟩ none none
      = Except.error Err.duplicateNameOrLayer := by
    rw [extrude_transition]
    show (getNamedSections dupX.sections >>= _) = _
    have hdup : getNamedSections dupX.sections = Except.error Err.duplicateNameOrLayer := by
      rw [getNamedSections, dupX]
      simp only [List.foldlM_cons, List.foldlM_nil]
      rw [if_neg (by simp)]
      show (Except.ok _ >>= _) = _
      rw [show ∀ (x : List ((String ⊕ Layer) × Sec)) (f : _ → Except Err _),
          (Except.ok x >>= f) = f x from fun _ _ => rfl]
      rw [if_pos (by simp [sectionKey])]
      rfl
    rw [hdup]
    rfl
  refine ⟨?_, herr, ?_⟩
  · intro k hk
    have hk2 : k = Sum.inr ((1 : ℤ), (0 : ℤ)) := by
      simpa [dupX, sectionKey] using hk
    rw [hk2]
    norm_num [otherX, sectionKey]
  · rw [herr]
    intro h
    simp at h

theorem toNat_cast_real (z : ℤ) (h : 0 ≤ z) : ((z.toNat : ℕ) : ℝ) = (z : ℝ) := by
  exact_mod_cast Int.toNat_of_nonneg h

theorem placeInSeg_char (m : ℕ) : ∀ (fuel : ℕ) (bound stop next s : ℝ), 0 < s →
    countFrom bound stop next s = m → m < fuel →
    placeInSeg fuel bound stop next s = (List.range m).map fun k : ℕ => next + (k : ℝ) * s := by
  induction m with
  | zero =>
    intro fuel bound stop next s hs hc hf
    obtain ⟨f, rfl⟩ : ∃ f, fuel = f + 1 := ⟨fuel - 1, by omega⟩
    rw [placeInSeg, if_neg, List.range_zero, List.map_nil]
    rintro ⟨h1, h2⟩
    rw [countFrom, if_pos (le_min h1 h2)] at hc
    have h0 : 0 ≤ ⌊(min bound stop - next) / s⌋ := by
      apply Int.floor_nonneg.mpr
      apply div_nonneg _ hs.le
      have := le_min h1 h2
      linarith [le_min h1 h2]
    omega
  | succ m ih =>
    intro fuel bound stop next s hs hc hf
    obtain ⟨f, rfl⟩ : ∃ f, fuel = f + 1 := ⟨fuel - 1, by omega⟩
    have hcond : next ≤ min bound stop := by
      by_contra hn
      rw [countFrom, if_neg hn] at hc
      omega
    have h0 : 0 ≤ ⌊(min bound stop - next) / s⌋ :=
      Int.floor_nonneg.mpr (div_nonneg (by linarith [hcond]) hs.le)
    have hfl : ⌊(min bound stop - next) / s⌋ = m := by
      rw [countFrom, if_pos hcond] at hc
      omega
    rw [placeInSeg, if_pos ⟨(le_min_iff.mp hcond).1, (le_min_iff.mp hcond).2⟩]
    have hnext : countFrom bound stop (next + s) s = m := by
      rcases Nat.eq_zero_or_pos m with hm | hm
      · subst hm
        rw [countFrom, if_neg]
        intro hcon
        have hdiv : (1 : ℝ) ≤ (min bound stop - next) / s := by
          rw [le_div_iff hs]
          linarith [hcon]
        have := Int.le_floor.mpr (by exact_mod_cast hdiv : ((1 : ℤ) : ℝ) ≤ _)
        omega
      · have hge : ((m : ℤ) : ℝ) ≤ (min bound stop - next) / s := by
          rw [← hfl]
          exact Int.floor_le _
        have hcond2 : next + s ≤ min bound stop := by
          have hms : (1 : ℝ) ≤ (min bound stop - next) / s := by
            refine le_trans ?_ hge
            exact_mod_cast hm
          rw [le_div_iff hs] at hms
          linarith
        rw [countFrom, if_pos hcond2]
        have harg : (min bound stop - (next + s)) / s = (min bound stop - next) / s - 1 := by
          field_simp
          ring
        rw [harg, show (1 : ℝ) = ((1 : ℤ) : ℝ) by norm_num, Int.floor_sub_int, hfl]
        omega
    rw [ih f bound stop (next + s) s hs hnext (by omega)]
    rw [List.range_succ_eq_map, List.map_cons, List.map_map]
    congr 1
    · norm_num
    · refine List.map_congr_left fun k _ => ?_
      simp only [Function.comp_apply]
      push_cast
      ring

theorem count_split (bound stop next s : ℝ) (hs : 0 < s) :
    countTo stop next s
      = countFrom bound stop next s
        + countTo stop (next + (countFrom bound stop next s : ℝ) * s) s := by
  by_cases h1 : next ≤ min bound stop
  · rw [countFrom, if_pos h1]
    set v := (min bound stop - next) / s with hv
    have hv0 : 0 ≤ ⌊v⌋ := Int.floor_nonneg.mpr (div_nonneg (by linarith [le_min_iff.mp h1]) hs.le)
    have hcast : (((⌊v⌋ + 1).toNat : ℕ) : ℝ) = (⌊v⌋ : ℝ) + 1 := by
      rw [toNat_cast_real _ (by omega)]
      push_cast
      ring
    have hstopn : next ≤ stop := (le_min_iff.mp h1).2
    set x := (stop - next) / s with hx
    have hx0 : 0 ≤ ⌊x⌋ := Int.floor_nonneg.mpr (div_nonneg (by linarith) hs.le)
    have hvx : ⌊v⌋ ≤ ⌊x⌋ := by
      apply Int.floor_le_floor
      rw [hv, hx]
      exact (div_le_div_right hs).mpr (by linarith [min_le_right bound stop])
    rw [countTo, if_pos hstopn, hcast, ← hx]
    have harg : (stop - (next + ((⌊v⌋ : ℝ) + 1) * s)) / s = x - ((⌊v⌋ + 1 : ℤ) : ℝ) := by
      rw [show stop - (next + ((⌊v⌋ : ℝ) + 1) * s)
            = (stop - next) - ((⌊v⌋ : ℝ) + 1) * s by ring, sub_div,
          mul_div_cancel_right₀ _ (ne_of_gt hs), hx]
      push_cast
      ring
    by_cases h2 : next + ((⌊v⌋ : ℝ) + 1) * s ≤ stop
    · rw [countTo, if_pos h2, harg, Int.floor_sub_int]
      have hge : (⌊v⌋ + 1 : ℤ) ≤ ⌊x⌋ := by
        rw [Int.le_floor, hx, le_div_iff hs]
        push_cast
        linarith
      omega
    · rw [countTo, if_neg h2]
      have hlt : (x : ℝ) < (⌊v⌋ : ℝ) + 1 := by
        have : stop < next + ((⌊v⌋ : ℝ) + 1) * s := not_le.mp h2
        rw [hx]
        rw [div_lt_iff hs]
        linarith
      have hxlt : ⌊x⌋ < ⌊v⌋ + 1 := by
        have := Int.floor_le x
        have h' : (⌊x⌋ : ℝ) < (⌊v⌋ : ℝ) + 1 := lt_of_le_of_lt this hlt
        exact_mod_cast h'
      omega
  · rw [countFrom, if_neg h1]
    push_cast
    rw [zero_mul, add_zero, Nat.zero_add]

theorem placeSegs_char (segs : List ℝ) : ∀ (cum next stop s : ℝ), 0 < s →
    (∀ l ∈ segs, 0 ≤ l) → stop ≤ cum + segs.sum → (segs = [] → stop < next) →
    placeSegs segs cum next stop s
      = (List.range (countTo stop next s)).map fun k : ℕ => next + (k : ℝ) * s := by
  induction segs with
  | nil =>
    intro cum next stop s hs _ _ hnil
    have hlt := hnil rfl
    rw [countTo, if_neg (not_le.mpr hlt)]
    simp [placeSegs]
  | cons L rest ih =>
    intro cum next stop s hs hnn hstop hnil
    simp only [placeSegs]
    have hfuel : countFrom (cum + L) stop next s < segFuel (cum + L) stop next s := by
      rw [countFrom, segFuel]
      by_cases hc : next ≤ min (cum + L) stop
      · rw [if_pos hc]
        omega
      · rw [if_neg hc]
        omega
    rw [placeInSeg_char (countFrom (cum + L) stop next s) _ _ _ _ _ hs rfl hfuel]
    rw [List.length_map, List.length_range]
    have hL0 : 0 ≤ L := hnn L (by simp)
    have hover : min (cum + L) stop < next + ((countFrom (cum + L) stop next s : ℕ) : ℝ) * s := by
      rw [countFrom]
      by_cases hc : next ≤ min (cum + L) stop
      · rw [if_pos hc]
        have hv0 : 0 ≤ ⌊(min (cum + L) stop - next) / s⌋ :=
          Int.floor_nonneg.mpr (div_nonneg (by linarith) hs.le)
        rw [toNat_cast_real _ (by omega)]
        have hlt := Int.lt_floor_add_one ((min (cum + L) stop - next) / s)
        rw [div_lt_iff hs] at hlt
        push_cast
        linarith
      · rw [if_neg hc]
        push_cast
        rw [zero_mul, add_zero]
        exact not_le.mp hc
    rw [ih (cum + L) (next + ((countFrom (cum + L) stop next s : ℕ) : ℝ) * s) stop s hs
      (fun l hl => hnn l (List.mem_cons_of_mem L hl))
      (by
        rw [List.sum_cons] at hstop
        linarith)
      (by
        intro hrest
        subst hrest
        rw [List.sum_cons, List.sum_nil] at hstop
        have hmin : min (cum + L) stop = stop := min_eq_right (by linarith)
        rw [hmin] at hover
        exact hover)]
    rw [count_split (cum + L) stop next s hs, List.range_add, List.map_append, List.map_map]
    congr 1
    refine List.map_congr_left fun k _ => ?_
    simp only [Function.comp_apply]
    push_cast
    ring

/-- Claim C2 (amended): for a path with at least two points, spacing `s > 0`
and padding `p` with `0 ≤ p` and `L - 2p ≥ 0` (`L` the path length),
`along_path` places exactly `floor((L - 2p)/s) + 1` component instances;
consecutive placements are exactly `s` apart in arc length; the first
placement is at arc length at least `p` from the start, and the last at
least `p` from the end (a 1-point path places nothing, and a negative
padding can push `stop` past the path end so the trailing placements are
dropped — hence the added `2 ≤ points` and `0 ≤ p`). -/
theorem along_path_spec (pts : List Pt) (s p : ℝ)
    (hpts : 2 ≤ pts.length) (hs : 0 < s) (hp : 0 ≤ p) (hL : 2 * p ≤ polyLength pts) :
    (alongPathPositions pts s p).length = (⌊(polyLength pts - 2 * p) / s⌋ + 1).toNat ∧
    (∀ i : ℕ, i + 1 < (alongPathPositions pts s p).length →
      (alongPathPositions pts s p).getD (i + 1) 0 - (alongPathPositions pts s p).getD i 0 = s) ∧
    p ≤ (alongPathPositions pts s p).getD 0 0 ∧
    (alongPathPositions pts s p).getD ((alongPathPositions pts s p).length - 1) 0
      ≤ polyLength pts - p := by
  set L := polyLength pts with hLdef
  set nfl : ℤ := ⌊(L - 2 * p) / s⌋ with hnfl
  have hnfl0 : 0 ≤ nfl := Int.floor_nonneg.mpr (div_nonneg (by linarith) hs.le)
  have hnfls : (nfl : ℝ) * s ≤ L - 2 * p := by
    have := Int.floor_le ((L - 2 * p) / s)
    rw [← hnfl] at this
    calc (nfl : ℝ) * s ≤ ((L - 2 * p) / s) * s := by
          exact mul_le_mul_of_nonneg_right this hs.le
      _ = L - 2 * p := by field_simp
  set first := (L - ((nfl : ℝ) + 1 - 1) * s) / 2 with hfirst
  have hfirstp : p ≤ first := by
    rw [hfirst]
    rw [show (nfl : ℝ) + 1 - 1 = (nfl : ℝ) by ring]
    linarith
  have hfirst0 : 0 ≤ first := le_trans hp hfirstp
  have hsum : (segLens pts).sum = L := rfl
  have hsegs0 : ∀ l ∈ segLens pts, 0 ≤ l := by
    intro l hl
    rw [segLens] at hl
    obtain ⟨ab, _, rfl⟩ := List.mem_map.mp hl
    exact Real.sqrt_nonneg _
  have hne : segLens pts ≠ [] := by
    rw [segLens]
    intro hnil
    have := congrArg List.length hnil
    rw [List.length_map, List.length_zip, List.length_tail] at this
    simp only [List.length_nil] at this
    omega
  have hchar : alongPathPositions pts s p
      = (List.range (countTo (L - first) first s)).map fun k : ℕ => first + (k : ℝ) * s := by
    rw [alongPathPositions]
    rw [placeSegs_char (segLens pts) 0 first (L - first) s hs hsegs0
      (by rw [hsum]; linarith) (fun h => absurd h hne)]
  have hcount : countTo (L - first) first s = (nfl + 1).toNat := by
    rw [countTo, if_pos (by
      rw [hfirst]
      rw [show (nfl : ℝ) + 1 - 1 = (nfl : ℝ) by ring]
      have : 0 ≤ (nfl : ℝ) * s := mul_nonneg (by exact_mod_cast hnfl0) hs.le
      linarith)]
    have harg : (L - first - first) / s = ((nfl : ℤ) : ℝ) := by
      rw [hfirst]
      rw [show (nfl : ℝ) + 1 - 1 = (nfl : ℝ) by ring]
      field_simp
      ring
    rw [harg, Int.floor_intCast]
  have hlen : (alongPathPositions pts s p).length = (nfl + 1).toNat := by
    rw [hchar, List.length_map, List.length_range, hcount]
  have hlenpos : 1 ≤ (alongPathPositions pts s p).length := by
    rw [hlen]
    omega
  refine ⟨hlen, ?_, ?_, ?_⟩
  · intro i hi
    rw [hchar] at hi ⊢
    rw [List.length_map, List.length_range] at hi
    rw [List.getD_eq_getElem?_getD, List.getD_eq_getElem?_getD,
      List.getElem?_map, List.getElem?_map,
      List.getElem?_range hi, List.getElem?_range (by omega)]
    simp only [Option.map_some', Option.getD_some]
    push_cast
    ring
  · rw [hchar, List.getD_eq_getElem?_getD, List.getElem?_map, List.getElem?_range (by
      rw [hchar, List.length_map, List.length_range] at hlenpos
      omega)]
    simp only [Option.map_some', Option.getD_some]
    push_cast
    linarith [hfirstp]
  · rw [hlen, hchar]
    have hidx : (nfl + 1).toNat - 1 < countTo (L - first) first s := by
      rw [hcount]
      omega
    rw [List.getD_eq_getElem?_getD, List.getElem?_map, List.getElem?_range hidx]
    simp only [Option.map_some', Option.getD_some]
    have hcast : ((((nfl + 1).toNat - 1 : ℕ)) : ℝ) = (nfl : ℝ) := by
      have h1 : ((nfl + 1).toNat : ℤ) = nfl + 1 := Int.toNat_of_nonneg (by omega)
      have h2 : ((nfl + 1).toNat : ℕ) - 1 = (nfl.toNat : ℕ) := by omega
      rw [h2, toNat_cast_real _ hnfl0]
    rw [hcast]
    rw [hfirst, show (nfl : ℝ) + 1 - 1 = (nfl : ℝ) by ring]
    linarith

/-- Claim C2 (amended) witness: `along_path(straight(length=100), spacing=20,
padding=5)` places exactly `floor((100-10)/20)+1 = 5` instances. -/
theorem along_path_spec_witness :
    (2 ≤ (straightPath 100 2).points.length ∧ (0 : ℝ) < 20 ∧ (0 : ℝ) ≤ 5 ∧
      2 * 5 ≤ polyLength (straightPath 100 2).points) ∧
    (alongPathPositions (straightPath 100 2).points 20 5).length = 5 := by
  have hlen : polyLength (straightPath (100 : ℝ) 2).points = 100 :=
    straightPath_length_eq 100 2 (by norm_num) (by norm_num)
  have h2 : 2 ≤ (straightPath (100 : ℝ) 2).points.length := by
    rw [straightPath_points 100 2 (by norm_num) (by norm_num)]
    simp
  refine ⟨⟨h2, by norm_num, by norm_num, by rw [hlen]; norm_num⟩, ?_⟩
  have hcnt := (along_path_spec (straightPath 100 2).points 20 5 h2 (by norm_num) (by norm_num)
    (by rw [hlen]; norm_num)).1
  rw [hcnt, hlen]
  have hfl : ⌊((100 : ℝ) - 2 * 5) / 20⌋ = 4 := by norm_num
  rw [hfl]
  decide

theorem placeSegs_one_len (next stop : ℝ) (hcf : countFrom (0 + 1) stop next 10 = 11) :
    (placeSegs [(1 : ℝ)] 0 next stop 10).length = 11 := by
  have hfuel : countFrom (0 + 1) stop next 10 < segFuel (0 + 1) stop next 10 := by
    rw [segFuel]
    rw [countFrom] at hcf ⊢
    by_cases hc : next ≤ min (0 + 1) stop
    · rw [if_pos hc] at hcf ⊢
      omega
    · rw [if_neg hc] at hcf
      omega
  simp only [placeSegs]
  rw [placeInSeg_char (countFrom (0 + 1) stop next 10) _ _ _ _ _ (by norm_num) rfl hfuel, hcf]
  simp

/-- Claim C2 counterexample: the claim as stated fails without the added
conditions.  (i) The degenerate one-point path has length 0 and satisfies
`s > 0`, `L - 2p ≥ 0` with `p = 0`, but `along_path` places 0 instances
while the claim predicts `floor(0/1)+1 = 1`.  (ii) With negative padding
`p = -100` on a unit-length two-point path and `s = 10`, the claim predicts
`floor(201/10)+1 = 21` instances but only 11 fit before the path runs out
(`stop` exceeds the path length when `p < 0`). -/
theorem along_path_claim_counterexample :
    ((0 : ℝ) < 1 ∧ (0 : ℝ) ≤ polyLength [((0 : ℝ), (0 : ℝ))] - 2 * 0 ∧
      (alongPathPositions [((0 : ℝ), (0 : ℝ))] 1 0).length
        ≠ (⌊(polyLength [((0 : ℝ), (0 : ℝ))] - 2 * 0) / 1⌋ + 1).toNat) ∧
    ((0 : ℝ) < 10 ∧ (0 : ℝ) ≤ polyLength [((0 : ℝ), (0 : ℝ)), (1, 0)] - 2 * (-100) ∧
      2 ≤ ([((0 : ℝ), (0 : ℝ)), (1, 0)] : List Pt).length ∧
      (alongPathPositions [((0 : ℝ), (0 : ℝ)), (1, 0)] 10 (-100)).length
        ≠ (⌊(polyLength [((0 : ℝ), (0 : ℝ)), (1, 0)] - 2 * (-100)) / 10⌋ + 1).toNat) := by
  have hpl0 : polyLength [((0 : ℝ), (0 : ℝ))] = 0 := by simp [polyLength]
  have hpl1 : polyLength [((0 : ℝ), (0 : ℝ)), (1, 0)] = 1 := by
    simp [polyLength]
    show segLen ((0 : ℝ), (0 : ℝ)) ((1 : ℝ), (0 : ℝ)) = 1
    rw [segLen_horiz]
    norm_num
  have hseg1 : segLens [((0 : ℝ), (0 : ℝ)), (1, 0)] = [1] := by
    simp [segLens]
    show segLen ((0 : ℝ), (0 : ℝ)) ((1 : ℝ), (0 : ℝ)) = 1
    rw [segLen_horiz]
    norm_num
  constructor
  · refine ⟨by norm_num, by rw [hpl0]; norm_num, ?_⟩
    rw [hpl0]
    simp only [alongPathPositions]
    rw [show segLens [((0 : ℝ), (0 : ℝ))] = [] by simp [segLens]]
    simp [placeSegs, hpl0]
  · refine ⟨by norm_num, by rw [hpl1]; norm_num, by simp, ?_⟩
    have hfl : ⌊((1 : ℝ) - 2 * (-100)) / 10⌋ = 20 := by norm_num
    simp only [alongPathPositions, hseg1, hpl1, hfl]
    rw [placeSegs_one_len _ _ (by
      rw [countFrom]
      rw [if_pos (by norm_num [min_def])]
      norm_num [min_def]
      decide)]
    decide


end

end Gds
